import Mathlib

/-!
Verification of the colrev record store and status-integrity engine
(src/colrev/dataset.py) against its natural-language specification.

The Python code is shallowly embedded: the byte-level file-editing loops
become pure functions over the list of lines of the file (exactly the
strings Python readline returns, newline terminators included), fallible
code returns Except, and the in-place mutation of status_data dicts
becomes explicit state passing.  Components of the repository that the
claims need but whose source is not part of the provided tree
(colrev.record.RecordState, colrev.process.ProcessModel, the stringify
step of colrev.record.Record.get_data, the pybtex surface reader) are
modelled from the specification and marked as such in their doc comments.
-/

namespace Colrev

/-! ## Python string primitives

Helpers mirroring the exact Python string operations used in
src/colrev/dataset.py.  They are written by structural recursion over the
character list so that every definition reduces inside the kernel. -/

/-- Index of the first occurrence of a character, as Python str.find:
-1 when absent. -/
def pyFindAux (c : Char) : List Char → Nat → Int
  | [], _ => -1
  | x :: xs, i => if x = c then (i : Int) else pyFindAux c xs (i + 1)

/-- Python str.find for a single character. -/
def pyFind (s : String) (c : Char) : Int :=
  pyFindAux c s.data 0

/-- Index of the last occurrence of a character, as Python str.rfind:
-1 when absent. -/
def pyRFindAux (c : Char) : List Char → Nat → Int → Int
  | [], _, acc => acc
  | x :: xs, i, acc => pyRFindAux c xs (i + 1) (if x = c then (i : Int) else acc)

/-- Python str.rfind for a single character. -/
def pyRFind (s : String) (c : Char) : Int :=
  pyRFindAux c s.data 0 (-1)

/-- Python slice s[a:b] with Python index semantics: negative indices
count from the end, out-of-range indices are clamped. -/
def pySlice (s : String) (a b : Int) : String :=
  let n : Int := (s.length : Int)
  let norm : Int → Nat := fun i =>
    if i < 0 then (max (n + i) 0).toNat else (min i n).toNat
  String.mk ((s.data.take (norm b)).drop (norm a))

/-- Python s[:k] (take the first k characters). -/
def pyTake (s : String) (k : Nat) : String :=
  String.mk (s.data.take k)

/-- Python str.lstrip() with no argument: drop leading whitespace. -/
def pyLstrip (s : String) : String :=
  String.mk (s.data.dropWhile Char.isWhitespace)

/-- Python str.rstrip() with no argument: drop trailing whitespace. -/
def pyRstrip (s : String) : String :=
  String.mk ((s.data.reverse.dropWhile Char.isWhitespace).reverse)

/-- Python str.strip() with no argument. -/
def pyStrip (s : String) : String :=
  pyRstrip (pyLstrip s)

/-- Split a character list at every occurrence of a single character,
as Python str.split(c): "".split(c) = [""], separators are not kept. -/
def splitCharAux (c : Char) : List Char → List (List Char)
  | [] => [[]]
  | x :: xs =>
    if x = c then [] :: splitCharAux c xs
    else
      match splitCharAux c xs with
      | [] => [[x]]
      | h :: t => (x :: h) :: t

/-- Python s.split(c) for a one-character separator. -/
def pySplitChar (s : String) (c : Char) : List String :=
  (splitCharAux c s.data).map String.mk

/-- Split at every occurrence of the two-character separator "; ",
left to right without overlap, as Python str.split("; "). -/
def splitSemiSpaceAux : List Char → List (List Char)
  | [] => [[]]
  | [x] => [[x]]
  | x :: y :: xs =>
    if x = ';' ∧ y = ' ' then [] :: splitSemiSpaceAux xs
    else
      match splitSemiSpaceAux (y :: xs) with
      | [] => [[x]]
      | h :: t => (x :: h) :: t

/-- Python s.split("; "). -/
def pySplitSemiSpace (s : String) : List String :=
  (splitSemiSpaceAux s.data).map String.mk

/-- Concatenate a list of strings. -/
def joinStr (l : List String) : String :=
  l.foldr (fun a b => a ++ b) ""

/-- Concatenate with a separator between elements ("sep".join in Python). -/
def joinSep (sep : String) : List String → String
  | [] => ""
  | [x] => x
  | x :: y :: xs => x ++ sep ++ joinSep sep (y :: xs)

/-- A string of k spaces. -/
def spaces (k : Nat) : String :=
  String.mk (List.replicate k ' ')

/-! ## The record status state machine

Modelled from the spec: colrev.record.RecordState is not part of the
provided source tree.  Spec section 4.3 fixes the fourteen lifecycle
states; their string form is the enum member name. -/

inductive RecordState where
  | md_retrieved
  | md_imported
  | md_needs_manual_preparation
  | md_prepared
  | md_processed
  | rev_prescreen_excluded
  | rev_prescreen_included
  | pdf_needs_manual_retrieval
  | pdf_imported
  | pdf_not_available
  | pdf_needs_manual_preparation
  | pdf_prepared
  | rev_excluded
  | rev_included
  | rev_synthesized
deriving DecidableEq, Repr, Fintype

namespace RecordState

/-- The string form of a state (Python str() of the enum member). -/
def str : RecordState → String
  | md_retrieved => "md_retrieved"
  | md_imported => "md_imported"
  | md_needs_manual_preparation => "md_needs_manual_preparation"
  | md_prepared => "md_prepared"
  | md_processed => "md_processed"
  | rev_prescreen_excluded => "rev_prescreen_excluded"
  | rev_prescreen_included => "rev_prescreen_included"
  | pdf_needs_manual_retrieval => "pdf_needs_manual_retrieval"
  | pdf_imported => "pdf_imported"
  | pdf_not_available => "pdf_not_available"
  | pdf_needs_manual_preparation => "pdf_needs_manual_preparation"
  | pdf_prepared => "pdf_prepared"
  | rev_excluded => "rev_excluded"
  | rev_included => "rev_included"
  | rev_synthesized => "rev_synthesized"

/-- All states, in lifecycle order (iteration order of the Python enum). -/
def all : List RecordState :=
  [md_retrieved, md_imported, md_needs_manual_preparation, md_prepared,
   md_processed, rev_prescreen_excluded, rev_prescreen_included,
   pdf_needs_manual_retrieval, pdf_imported, pdf_not_available,
   pdf_needs_manual_preparation, pdf_prepared, rev_excluded, rev_included,
   rev_synthesized]

/-- The string forms of all states ([str(x) for x in RecordState] in the
Python code). -/
def allStrs : List String :=
  all.map str

/-- Modelled from the spec: RecordState.get_post_x_states for
md_processed.  Spec section 4.3: a record is persisted "once it has
reached any state at or beyond md_processed"; the result is the set of
string names of md_processed and every later state. -/
def postMdProcessedStates : List String :=
  [md_processed, rev_prescreen_excluded, rev_prescreen_included,
   pdf_needs_manual_retrieval, pdf_imported, pdf_not_available,
   pdf_needs_manual_preparation, pdf_prepared, rev_excluded, rev_included,
   rev_synthesized].map str

end RecordState

/-- One edge of the fixed transition table: {source, dest, trigger}. -/
structure Transition where
  trigger : String
  source : RecordState
  dest : RecordState
deriving DecidableEq, Repr

namespace ProcessModel

/-- Modelled from the spec: colrev.process.ProcessModel.transitions is
not part of the provided source tree.  Spec section 4.3 fixes the edge
list: md_retrieved -> md_imported; md_imported -> md_needs_manual_preparation
or md_prepared; md_needs_manual_preparation loops back to md_prepared;
md_prepared -> md_processed; md_processed -> rev_prescreen_excluded or
rev_prescreen_included; rev_prescreen_included -> pdf_needs_manual_retrieval
or pdf_imported; pdf_needs_manual_retrieval -> pdf_imported or
pdf_not_available; pdf_imported -> pdf_needs_manual_preparation or
pdf_prepared; pdf_needs_manual_preparation -> pdf_prepared; pdf_prepared ->
rev_excluded or rev_included; rev_included -> rev_synthesized.  Triggers
are the operation names of the spec (load, prep, ..., section 8 shows
trigger "prep"). -/
def transitions : List Transition :=
  [⟨"load", .md_retrieved, .md_imported⟩,
   ⟨"prep", .md_imported, .md_needs_manual_preparation⟩,
   ⟨"prep", .md_imported, .md_prepared⟩,
   ⟨"prep_man", .md_needs_manual_preparation, .md_prepared⟩,
   ⟨"dedupe", .md_prepared, .md_processed⟩,
   ⟨"prescreen", .md_processed, .rev_prescreen_excluded⟩,
   ⟨"prescreen", .md_processed, .rev_prescreen_included⟩,
   ⟨"pdf_get", .rev_prescreen_included, .pdf_needs_manual_retrieval⟩,
   ⟨"pdf_get", .rev_prescreen_included, .pdf_imported⟩,
   ⟨"pdf_get_man", .pdf_needs_manual_retrieval, .pdf_imported⟩,
   ⟨"pdf_get_man", .pdf_needs_manual_retrieval, .pdf_not_available⟩,
   ⟨"pdf_prep", .pdf_imported, .pdf_needs_manual_preparation⟩,
   ⟨"pdf_prep", .pdf_imported, .pdf_prepared⟩,
   ⟨"pdf_prep_man", .pdf_needs_manual_preparation, .pdf_prepared⟩,
   ⟨"screen", .pdf_prepared, .rev_excluded⟩,
   ⟨"screen", .pdf_prepared, .rev_included⟩,
   ⟨"data", .rev_included, .rev_synthesized⟩]

end ProcessModel

/-! ## Status data

The status_data dict built by Dataset.retrieve_status_data
(src/colrev/dataset.py lines 1020-1107). -/

/-- The mutable status_data dictionary, as explicit state. -/
structure StatusData where
  pdf_not_exists : List String := []
  status_fields : List String := []
  status_transitions : List (String × String) := []
  start_states : List String := []
  screening_criteria_list : List (String × String × String) := []
  IDs : List String := []
  entries_without_origin : List String := []
  record_links_in_bib : List String := []
  persisted_IDs : List (String × String) := []
  origin_list : List (String × String) := []
  invalid_state_transitions : List String := []
deriving DecidableEq, Repr

/-- colrev_exceptions.StatusFieldValueError (record_id, field, value). -/
structure StatusFieldValueError where
  record_id : String
  field : String
  value : String
deriving DecidableEq, Repr

/-- The first prior status recorded for any origin token of the record:
prior_status[0] in Dataset.__get_status_transitions. -/
def firstPriorStatus (origin : String) (prior_colrev_status : List (String × String)) :
    Option String :=
  ((prior_colrev_status.filter
      (fun p => (pySplitChar origin ';').contains p.1)).map (fun p => p.2)).head?

/-- Dataset.__get_status_transitions (src/colrev/dataset.py lines
971-1018).  Returns the {record_id: trigger-or-load} pair and the updated
status_data; raising StatusFieldValueError becomes the error case. -/
def get_status_transitions (record_id : String) (origin : String)
    (prior_colrev_status : List (String × String)) (status : String)
    (sd : StatusData) :
    Except StatusFieldValueError ((String × String) × StatusData) :=
  match firstPriorStatus origin prior_colrev_status with
  | none => .ok ((record_id, "load"), sd)
  | some p =>
    let proc_transition_list : List String :=
      (ProcessModel.transitions.filter
        (fun t => t.source.str == p && t.dest.str == status)).map
        (fun t => t.trigger)
    if proc_transition_list = [] then
      if p ≠ status then
        let sd1 := { sd with start_states := sd.start_states ++ [p] }
        if p ∉ RecordState.allStrs then
          .error ⟨record_id, "colrev_status", p⟩
        else if status ∉ RecordState.allStrs then
          .error ⟨record_id, "colrev_status", status⟩
        else
          .ok ((record_id, "load"),
            { sd1 with invalid_state_transitions :=
                sd1.invalid_state_transitions ++
                  [record_id ++ ": " ++ p ++ " to " ++ status] })
      else
        .ok ((record_id, "load"), sd)
    else
      -- the guard ensures the list is nonempty; Python pops the last element
      .ok ((record_id, proc_transition_list.getLastD ""), sd)

/-- In the fixed table, source and dest determine the trigger. -/
theorem transitions_functional :
    ∀ t₁ ∈ ProcessModel.transitions, ∀ t₂ ∈ ProcessModel.transitions,
      t₁.source = t₂.source → t₁.dest = t₂.dest → t₁.trigger = t₂.trigger := by
  decide

/-- The string form is injective on states. -/
theorem recordState_str_injective :
    ∀ s₁ s₂ : RecordState, s₁.str = s₂.str → s₁ = s₂ := by
  decide

/-- In a nonempty list whose elements are all equal to a, getLastD is a. -/
theorem getLastD_of_all_eq {l : List String} {a : String}
    (hne : l ≠ []) (h : ∀ x ∈ l, x = a) : l.getLastD "" = a := by
  cases l with
  | nil => exact absurd rfl hne
  | cons x xs =>
    rw [List.getLastD_eq_getLast?, List.getLast?_eq_getLast (x :: xs) (by simp)]
    exact h _ (List.getLast_mem _)

/-- C1 counterexample: the pair (md_imported, md_imported) is observed
for origin s.bib/1 (the origin has that prior status and the record still
has that status), the pair is not an edge of the fixed transition table,
yet the validation records no InvalidTransition fact: status_data is
returned unchanged with an empty invalid_state_transitions list, so the
claim that every non-edge pair records an InvalidTransition fact is
false. -/
theorem C1_counterexample :
    (∀ t ∈ ProcessModel.transitions,
      ¬(t.source.str = "md_imported" ∧ t.dest.str = "md_imported"))
    ∧ firstPriorStatus "s.bib/1" [("s.bib/1", "md_imported")] =
        some "md_imported"
    ∧ get_status_transitions "R1" "s.bib/1" [("s.bib/1", "md_imported")]
        "md_imported" {} = .ok (("R1", "load"), {})
    ∧ ({} : StatusData).invalid_state_transitions = [] := by
  refine ⟨by decide, by rfl, by rfl, rfl⟩

/-- C1 (amended): for a status pair observed for the same origin between
the previous revision and the current records file, (1) a record whose
origin has no prior status is reported as a load transition; (2) if the
pair is an edge of the fixed transition table, the transition is reported
with the edge's trigger; (3) if the pair is not an edge of the table AND
the prior status differs from the new status (both being valid state
names), the validation records an InvalidTransition fact naming the
record's prior and new status (and the prior status as a start state). -/
theorem C1_amended_theorem (record_id origin status : String)
    (prior : List (String × String)) (sd : StatusData) :
    (firstPriorStatus origin prior = none →
      get_status_transitions record_id origin prior status sd =
        .ok ((record_id, "load"), sd))
    ∧ (∀ p, firstPriorStatus origin prior = some p →
        ∀ t ∈ ProcessModel.transitions, t.source.str = p →
          t.dest.str = status →
          get_status_transitions record_id origin prior status sd =
            .ok ((record_id, t.trigger), sd))
    ∧ (∀ p, firstPriorStatus origin prior = some p →
        (∀ t ∈ ProcessModel.transitions,
          ¬(t.source.str = p ∧ t.dest.str = status)) →
        p ≠ status → p ∈ RecordState.allStrs → status ∈ RecordState.allStrs →
        get_status_transitions record_id origin prior status sd =
          .ok ((record_id, "load"),
            { sd with
              start_states := sd.start_states ++ [p],
              invalid_state_transitions := sd.invalid_state_transitions ++
                [record_id ++ ": " ++ p ++ " to " ++ status] })) := by
  refine ⟨fun hnone => ?_, fun p hp t ht hs hd => ?_, fun p hp hno hneq hpv hsv => ?_⟩
  · simp only [get_status_transitions, hnone]
  · have hmem : t.trigger ∈ (ProcessModel.transitions.filter
        (fun t => t.source.str == p && t.dest.str == status)).map
        (fun t => t.trigger) := by
      exact List.mem_map_of_mem _ (List.mem_filter.mpr ⟨ht, by simp [hs, hd]⟩)
    have hne : (ProcessModel.transitions.filter
        (fun t => t.source.str == p && t.dest.str == status)).map
        (fun t => t.trigger) ≠ [] := by
      intro h0
      rw [h0] at hmem
      exact (List.not_mem_nil _) hmem
    have hall : ∀ x ∈ (ProcessModel.transitions.filter
        (fun t => t.source.str == p && t.dest.str == status)).map
        (fun t => t.trigger), x = t.trigger := by
      intro x hx
      obtain ⟨t', ht', hx'⟩ := List.mem_map.mp hx
      obtain ⟨htm, hpred⟩ := List.mem_filter.mp ht'
      simp only [Bool.and_eq_true, beq_iff_eq] at hpred
      subst hx'
      exact transitions_functional t' htm t ht
        (recordState_str_injective _ _ (hpred.1.trans hs.symm))
        (recordState_str_injective _ _ (hpred.2.trans hd.symm))
    simp only [get_status_transitions, hp]
    rw [if_neg hne, getLastD_of_all_eq hne hall]
  · have hempty : (ProcessModel.transitions.filter
        (fun t => t.source.str == p && t.dest.str == status)).map
        (fun t => t.trigger) = [] := by
      rw [List.map_eq_nil_iff, List.filter_eq_nil_iff]
      intro t ht
      simp only [Bool.and_eq_true, beq_iff_eq, not_and]
      intro h1 h2
      exact hno t ht ⟨h1, h2⟩
    simp only [get_status_transitions, hp]
    rw [if_pos hempty, if_pos hneq, if_neg (by simpa using hpv),
      if_neg (by simpa using hsv)]

/-- C1 witness: the edge md_imported -> md_prepared is reported with its
trigger prep. -/
theorem C1_witness :
    get_status_transitions "R1" "s.bib/1" [("s.bib/1", "md_imported")]
      "md_prepared" {} = .ok (("R1", "prep"), {}) := by
  exact ( C1_amended_theorem "R1" "s.bib/1" "md_prepared"
      [("s.bib/1", "md_imported")] {}).2.1 "md_imported" (by rfl)
    ⟨"prep", .md_imported, .md_prepared⟩ (by decide) rfl rfl

/-! ## Reading the records file record by record

Dataset.__read_next_record_str (src/colrev/dataset.py lines 747-771)
yields one string per bibliographic entry.  A file is embedded as the
list of strings Python readline returns (newline terminators kept). -/

/-- Split a file content string into readline-style lines (each keeps its
newline terminator; a final line without newline is kept as is). -/
def splitLinesKeepAux : List Char → List Char → List String
  | acc, [] => if acc = [] then [] else [String.mk acc.reverse]
  | acc, c :: rest =>
    if c = '\n' then
      String.mk (acc.reverse ++ ['\n']) :: splitLinesKeepAux [] rest
    else
      splitLinesKeepAux (c :: acc) rest

/-- All readline results for a file content string. -/
def splitLinesKeep (s : String) : List String :=
  splitLinesKeepAux [] s.data

/-- Python "@" in line[:3]. -/
def containsAtIn3 (l : String) : Bool :=
  (l.data.take 3).contains '@'

/-- Whether sub occurs as a contiguous subsequence. -/
def isSubChars (sub : List Char) : List Char → Bool
  | [] => sub.isEmpty
  | c :: rest => sub.isPrefixOf (c :: rest) || isSubChars sub rest

/-- Python substring membership sub in s. -/
def strContains (sub s : String) : Bool :=
  isSubChars sub.data s.data

/-- line[line.find("{") + 1 : line.rfind(",")] -/
def extractBraceComma (l : String) : String :=
  pySlice l (pyFind l '{' + 1) (pyRFind l ',')

/-- line[line.find("{") + 1 : line.rfind("}")] -/
def extractBraceBrace (l : String) : String :=
  pySlice l (pyFind l '{' + 1) (pyRFind l '}')

/-- The loop body of Dataset.__read_next_record_str: data accumulates
non-comment non-blank lines, a new entry starts at each line whose first
character is @, and the accumulated data is yielded unconditionally at
end of file. -/
def readNextRecordStrAux : String → Bool → List String → List String
  | data, _, [] => [data]
  | data, first_entry_processed, l :: rest =>
    if pyTake l 1 = "%" ∨ l = "\n" then
      readNextRecordStrAux data first_entry_processed rest
    else if pyTake l 1 ≠ "@" then
      readNextRecordStrAux (data ++ l) first_entry_processed rest
    else if first_entry_processed then
      data :: readNextRecordStrAux l true rest
    else
      readNextRecordStrAux l true rest

/-- Dataset.__read_next_record_str over the lines of a file. -/
def read_next_record_str (lines : List String) : List String :=
  readNextRecordStrAux "" false lines

/-! ## Prior revision data

Dataset.retrieve_prior (src/colrev/dataset.py lines 1109-1142): scans the
records file content of the last committed revision. -/

/-- The prior dict: per-origin statuses and persisted (origin, id) pairs. -/
structure Prior where
  colrev_status : List (String × String) := []
  persisted_IDs : List (String × String) := []
deriving DecidableEq, Repr

/-- The per-record line scan of Dataset.retrieve_prior: extracts
(record_id, status, origin), each defaulting to NA. -/
def scanPriorLines : List String → String × String × String →
    String × String × String
  | [], st => st
  | l :: rest, (rid, status, origin) =>
    let rid := if containsAtIn3 l then extractBraceComma l else rid
    let status :=
      if pyTake (pyLstrip l) 13 = "colrev_status" then extractBraceBrace l
      else status
    let origin :=
      if pyTake (pyStrip l) 13 = "colrev_origin" then extractBraceBrace l
      else origin
    scanPriorLines rest (rid, status, origin)

/-- Dataset.retrieve_prior on the content of the prior revision of the
records file.  A persisted (origin, id) pair is recorded only when the
record's status string equals md_processed exactly. -/
def retrieve_prior (text : String) : Prior :=
  (read_next_record_str (splitLinesKeep text)).foldl
    (fun pr rs =>
      let scanned := scanPriorLines (pySplitChar rs '\n') ("NA", "NA", "NA")
      let rid := scanned.1
      let status := scanned.2.1
      let origin := scanned.2.2
      if rid ≠ "NA" then
        (pySplitChar origin ';').foldl
          (fun pr orig =>
            let pr := { pr with colrev_status := pr.colrev_status ++ [(orig, status)] }
            if RecordState.md_processed.str = status then
              { pr with persisted_IDs := pr.persisted_IDs ++ [(orig, rid)] }
            else pr)
          pr
      else pr)
    {}

/-! ## Current status data

Dataset.retrieve_status_data (src/colrev/dataset.py lines 1020-1107).
The filesystem test Path(f).is_file() is a collaborator and is passed in
as a function. -/

/-- The per-record line scan of Dataset.retrieve_status_data: extracts
(record_id, file_path, status, excl_crit, origin); a line containing
@Comment sets the id to Comment and stops the scan. -/
def scanStatusLines :
    List String → String × String × String × String × String →
    String × String × String × String × String
  | [], st => st
  | l :: rest, (rid, fp, status, excl, origin) =>
    if strContains "@Comment" l then ("Comment", fp, status, excl, origin)
    else
      let rid := if containsAtIn3 l then extractBraceComma l else rid
      let fp :=
        if pyTake (pyLstrip l) 4 = "file" then extractBraceBrace l else fp
      let status :=
        if pyTake (pyLstrip l) 13 = "colrev_status" then extractBraceBrace l
        else status
      let excl :=
        if pyTake (pyLstrip l) 18 = "screening_criteria" then
          extractBraceBrace l
        else excl
      let origin :=
        if pyTake (pyStrip l) 13 = "colrev_origin" then extractBraceBrace l
        else origin
      scanStatusLines rest (rid, fp, status, excl, origin)

/-- The per-record-string body of Dataset.retrieve_status_data. -/
def statusDataStep (fileExists : String → Bool)
    (prior_colrev_status : List (String × String)) (rs : String)
    (sd : StatusData) : Except StatusFieldValueError StatusData :=
  let scanned :=
    scanStatusLines (pySplitChar rs '\n') ("NA", "NA", "NA", "not_set", "NA")
  let rid := scanned.1
  let fp := scanned.2.1
  let status := scanned.2.2.1
  let excl := scanned.2.2.2.1
  let origin := scanned.2.2.2.2
  if rid = "Comment" then .ok sd
  else if rid = "NA" then .ok sd
  else
    let sd := { sd with IDs := sd.IDs ++ [rid] }
    let sd := { sd with origin_list :=
      sd.origin_list ++ (pySplitChar origin ';').map (fun org => (rid, org)) }
    let sd :=
      if RecordState.postMdProcessedStates.contains status then
        { sd with persisted_IDs :=
          sd.persisted_IDs ++ (pySplitChar origin ';').map (fun op => (op, rid)) }
      else sd
    let sd :=
      if fp ≠ "NA" ∧ ¬ ((pySplitChar fp ';').all fileExists) then
        { sd with pdf_not_exists := sd.pdf_not_exists ++ [rid] }
      else sd
    let sd :=
      if origin ≠ "NA" then
        { sd with record_links_in_bib :=
          sd.record_links_in_bib ++ pySplitChar origin ';' }
      else
        { sd with entries_without_origin := sd.entries_without_origin ++ [rid] }
    let sd := { sd with status_fields := sd.status_fields ++ [status] }
    let sd :=
      if excl ≠ "not_set" then
        { sd with screening_criteria_list :=
          sd.screening_criteria_list ++ [(rid, status, excl)] }
      else sd
    match get_status_transitions rid origin prior_colrev_status status sd with
    | .error e => .error e
    | .ok (tr, sd) =>
      .ok { sd with status_transitions := sd.status_transitions ++ [tr] }

/-- Fold of statusDataStep over the record strings. -/
def retrieveStatusDataAux (fileExists : String → Bool)
    (prior_colrev_status : List (String × String)) :
    List String → StatusData → Except StatusFieldValueError StatusData
  | [], sd => .ok sd
  | rs :: rest, sd =>
    match statusDataStep fileExists prior_colrev_status rs sd with
    | .error e => .error e
    | .ok sd => retrieveStatusDataAux fileExists prior_colrev_status rest sd

/-- Dataset.retrieve_status_data on the current records file content. -/
def retrieve_status_data (fileExists : String → Bool) (prior : Prior)
    (text : String) : Except StatusFieldValueError StatusData :=
  retrieveStatusDataAux fileExists prior.colrev_status
    (read_next_record_str (splitLinesKeep text)) {}

/-! ## Aggregate checks -/

/-- colrev_exceptions.DuplicateIDsError carrying the duplicated ids. -/
structure DuplicateIDsError where
  duplicates : List String
deriving DecidableEq, Repr

/-- Dataset.check_main_records_duplicates (src/colrev/dataset.py lines
1267-1280): fails iff the ID list has fewer distinct elements than
entries; the error carries every id occurring more than once. -/
def check_main_records_duplicates (sd : StatusData) :
    Except DuplicateIDsError Unit :=
  if ¬ sd.IDs.length = sd.IDs.dedup.length then
    .error ⟨sd.IDs.filter (fun i => 1 < sd.IDs.count i)⟩
  else .ok ()

/-- colrev_exceptions.StatusTransitionError: the two failure messages of
Dataset.check_status_transitions, as distinct constructors. -/
inductive StatusTransitionError where
  | multiple_start_states (start_states : List String)
  | invalid_transitions (transitions : List String)
deriving DecidableEq, Repr

/-- Dataset.check_status_transitions (src/colrev/dataset.py lines
1322-1332): fails on more than one distinct start state of invalid
transitions, else on any recorded invalid transition (the message lists
the distinct invalid transition facts). -/
def check_status_transitions (sd : StatusData) :
    Except StatusTransitionError Unit :=
  if 1 < sd.start_states.dedup.length then
    .error (.multiple_start_states sd.start_states.dedup)
  else if 0 < sd.invalid_state_transitions.dedup.length then
    .error (.invalid_transitions sd.invalid_state_transitions.dedup)
  else .ok ()

/-- colrev_exceptions.OriginError: the three failure messages of
Dataset.check_main_records_origin, as distinct constructors. -/
inductive OriginError where
  | entries_without_origin (ids : List String)
  | broken_origins (delta : List String)
  | non_unique_origin (origin : String)
deriving DecidableEq, Repr

/-- Dataset.check_main_records_origin (src/colrev/dataset.py lines
1282-1311).  The known source files of the search directory are the
collaborator input all_record_links.  Note: the Python code builds the
occurrence list by chaining the [record_id, origin] pairs of origin_list,
so record ids are counted together with origin tokens; the final loop
raises at the first origin token (second components, in order) that is in
the non-unique list, which is exactly List.find?. -/
def check_main_records_origin (all_record_links : List String)
    (sd : StatusData) : Except OriginError Unit :=
  if sd.entries_without_origin ≠ [] then
    .error (.entries_without_origin sd.entries_without_origin)
  else
    let delta :=
      sd.record_links_in_bib.dedup.filter (fun x => x ∉ all_record_links)
    if delta ≠ [] then .error (.broken_origins delta)
    else
      let origins := sd.origin_list.flatMap (fun p => [p.1, p.2])
      let non_unique_origins :=
        origins.filter (fun org => 1 < origins.count org)
      match (sd.origin_list.map (fun p => p.2)).find?
          (fun org => non_unique_origins.contains org) with
      | some org => .error (.non_unique_origin org)
      | none => .ok ()

/-- The errors Dataset.check_persisted_id_changes can raise: OriginError
for a removed origin, or colrev_exceptions.PropagatedIDChange carrying
the notifications of the working-tree text-artifact scan. -/
inductive PersistedIdError where
  | origin_removed (origin : String)
  | propagatedIDChange (notifications : List String)
deriving DecidableEq, Repr

/-- The final notification appended by Dataset.check_persisted_id_changes. -/
def changeMsg (prior_id new_id : String) : String :=
  "ID of processed record changed from " ++ prior_id ++ " to " ++ new_id

/-- The inner loop of Dataset.check_persisted_id_changes: the first
current (origin, id) pair whose origin equals prior_origin and whose id
differs from prior_id. -/
def findOffender (current : List (String × String)) (o pid : String) :
    Option String :=
  (current.find? (fun x => x.1 == o && x.2 != pid)).map (fun x => x.2)

/-- The outer loop of Dataset.check_persisted_id_changes over the prior
persisted (origin, id) pairs. -/
def checkPersistedAux (scan : String → String → List String)
    (current : List (String × String)) :
    List (String × String) → Except PersistedIdError Unit
  | [] => .ok ()
  | (prior_origin, prior_id) :: rest =>
    if ¬ (current.map (fun x => x.1)).contains prior_origin then
      .error (.origin_removed prior_origin)
    else
      match findOffender current prior_origin prior_id with
      | some new_id =>
        .error (.propagatedIDChange
          (scan prior_id new_id ++ [changeMsg prior_id new_id]))
      | none => checkPersistedAux scan current rest

/-- Dataset.check_persisted_id_changes (src/colrev/dataset.py lines
1479-1496).  The working-tree text-artifact scan check_propagated_ids is
a filesystem collaborator and is passed in as the scan function. -/
def check_persisted_id_changes (scan : String → String → List String)
    (prior : Prior) (sd : StatusData) : Except PersistedIdError Unit :=
  checkPersistedAux scan sd.persisted_IDs prior.persisted_IDs

/-! ## Helper lemmas for the aggregate checks -/

/-- A list has as many distinct elements as elements iff it has no
duplicates. -/
theorem dedup_length_eq_iff {l : List String} :
    l.dedup.length = l.length ↔ l.Nodup := by
  constructor
  · intro h
    have hs : l.dedup = l := l.dedup_sublist.eq_of_length h
    rw [← hs]
    exact l.nodup_dedup
  · intro h
    rw [List.dedup_eq_self.mpr h]

/-- Occurrences in the chained [record_id, origin] pairs split into
occurrences among the ids and among the origin tokens. -/
theorem count_chain (l : List (String × String)) (z : String) :
    (l.flatMap (fun p => [p.1, p.2])).count z =
      (l.map Prod.fst).count z + (l.map Prod.snd).count z := by
  induction l with
  | nil => simp
  | cons p t ih =>
    simp only [List.flatMap_cons, List.map_cons, List.count_append,
      List.count_cons, ih]
    simp only [List.count_nil]
    omega

/-! ## Claim C8: duplicate record identifiers -/

/-- C8: for every records file text whose scanned ID list contains the
same record id twice, the duplicate check on the resulting status data
fails with a DuplicateIDsError whose payload lists every duplicated id. -/
theorem C8_theorem (fileExists : String → Bool) (prior : Prior)
    (text : String) (sd : StatusData)
    (h1 : retrieve_status_data fileExists prior text = .ok sd)
    (h2 : ¬ sd.IDs.Nodup) :
    ∃ e : DuplicateIDsError,
      check_main_records_duplicates sd = .error e ∧
      ∀ i, 1 < sd.IDs.count i → i ∈ e.duplicates := by
  refine ⟨⟨sd.IDs.filter (fun i => 1 < sd.IDs.count i)⟩, ?_, ?_⟩
  · unfold check_main_records_duplicates
    rw [if_pos]
    intro hlen
    exact h2 (dedup_length_eq_iff.mp hlen.symm)
  · intro i hi
    refine List.mem_filter.mpr ⟨?_, by simpa using hi⟩
    exact List.count_pos_iff.mp (by omega)

/-- The file used in the C8 witness: the id R1 appears twice. -/
def c8text : String :=
  "@a\x7bR1,\n\x7d\n@a\x7bR1,\n\x7d\n"

/-- The status data scanned from c8text. -/
def c8sd : StatusData :=
  { status_fields := ["NA", "NA"],
    status_transitions := [("R1", "load"), ("R1", "load")],
    IDs := ["R1", "R1"],
    entries_without_origin := ["R1", "R1"],
    origin_list := [("R1", "NA"), ("R1", "NA")] }

/-- C8 witness: a concrete file in which R1 appears twice fails the
duplicate check with R1 reported. -/
theorem C8_witness :
    retrieve_status_data (fun _ => true) {} c8text = .ok c8sd ∧
    ¬ c8sd.IDs.Nodup ∧
    ∃ e : DuplicateIDsError,
      check_main_records_duplicates c8sd = .error e ∧
      ∀ i, 1 < c8sd.IDs.count i → i ∈ e.duplicates :=
  ⟨rfl, by decide,
    C8_theorem (fun _ => true) {} c8text c8sd rfl (by decide)⟩

/-! ## Claim C6: the aggregate status transition check -/

/-- C6: the aggregate status check over the observed transitions of one
store fails with the multiple-start-states error when more than one
distinct prior status was recorded as an invalid-transition start state,
and otherwise fails with the invalid-transitions error listing every
offending record fact when at least one invalid transition was
recorded. -/
theorem C6_theorem (sd : StatusData) :
    (1 < sd.start_states.dedup.length →
      check_status_transitions sd =
        .error (.multiple_start_states sd.start_states.dedup))
    ∧ (sd.start_states.dedup.length ≤ 1 →
      sd.invalid_state_transitions ≠ [] →
      check_status_transitions sd =
        .error (.invalid_transitions sd.invalid_state_transitions.dedup)
      ∧ ∀ t ∈ sd.invalid_state_transitions,
          t ∈ sd.invalid_state_transitions.dedup) := by
  constructor
  · intro h
    unfold check_status_transitions
    rw [if_pos h]
  · intro h1 h2
    refine ⟨?_, fun t ht => List.mem_dedup.mpr ht⟩
    unfold check_status_transitions
    rw [if_neg (by omega), if_pos]
    simpa [List.length_pos, List.dedup_eq_nil] using h2

/-- C6 witness: one start state and one invalid transition fact give the
invalid-transitions error listing the fact. -/
theorem C6_witness :
    check_status_transitions
        { start_states := ["md_imported"],
          invalid_state_transitions := ["R1: md_imported to rev_included"] } =
      .error (.invalid_transitions ["R1: md_imported to rev_included"]) ∧
    ("R1: md_imported to rev_included" ∈
      (["R1: md_imported to rev_included"] : List String).dedup) := by
  have h := (C6_theorem
    { start_states := ["md_imported"],
      invalid_state_transitions := ["R1: md_imported to rev_included"] }).2
    (by decide) (by decide)
  exact ⟨h.1, h.2 _ (by decide)⟩

/-! ## Claim C7: the aggregate origin validation -/

/-- The file used in the C7 counterexample: a single record that has an
origin, whose record id happens to equal its origin token. -/
def c7text : String :=
  "@a\x7bx.bib/1,\n   colrev_origin  = \x7bx.bib/1\x7d,\n\x7d\n"

/-- The status data scanned from c7text. -/
def c7sd : StatusData :=
  { status_fields := ["NA"],
    status_transitions := [("x.bib/1", "load")],
    IDs := ["x.bib/1"],
    record_links_in_bib := ["x.bib/1"],
    origin_list := [("x.bib/1", "x.bib/1")] }

/-- C7 counterexample: a store of a single record that has an origin,
with all origin tokens pairwise distinct (trivially, there is only one),
still fails the origin validation with a non-unique-origin OriginError,
because the check counts record ids together with origin tokens.  So the
claim that such a store passes the two checks is false. -/
theorem C7_counterexample :
    retrieve_status_data (fun _ => true) {} c7text = .ok c7sd
    ∧ c7sd.entries_without_origin = []
    ∧ c7sd.origin_list = [("x.bib/1", "x.bib/1")]
    ∧ (c7sd.origin_list.map Prod.snd).Nodup
    ∧ check_main_records_origin ["x.bib/1"] c7sd =
        .error (.non_unique_origin "x.bib/1") :=
  ⟨rfl, rfl, rfl, by decide, rfl⟩

/-- C7 (amended): (1) the origin validation raises OriginError whenever
some record in the store has no origin; (2) it raises an OriginError
whenever a single origin token appears in two entries of the origin
list; (3) a store in which every record has at least one origin, all
origin tokens are pairwise distinct, no record id equals an origin
token, and every origin token resolves to a known source entry, passes
the validation. -/
theorem C7_amended_theorem (all_record_links : List String)
    (sd : StatusData) :
    (sd.entries_without_origin ≠ [] →
      check_main_records_origin all_record_links sd =
        .error (.entries_without_origin sd.entries_without_origin))
    ∧ (¬ (sd.origin_list.map Prod.snd).Nodup →
      ∀ u : Unit, check_main_records_origin all_record_links sd ≠ .ok u)
    ∧ (sd.entries_without_origin = [] →
      (sd.origin_list.map Prod.snd).Nodup →
      (∀ p ∈ sd.origin_list, p.1 ∉ sd.origin_list.map Prod.snd) →
      (∀ x ∈ sd.record_links_in_bib, x ∈ all_record_links) →
      check_main_records_origin all_record_links sd = .ok ()) := by
  refine ⟨fun h => ?_, fun hdup u => ?_, fun h1 h2 h3 h4 => ?_⟩
  · unfold check_main_records_origin
    rw [if_pos h]
  · unfold check_main_records_origin
    by_cases he : sd.entries_without_origin ≠ []
    · rw [if_pos he]; simp
    · rw [if_neg he]
      by_cases hd : sd.record_links_in_bib.dedup.filter
          (fun x => x ∉ all_record_links) ≠ []
      · rw [if_pos hd]; simp
      · rw [if_neg hd]
        simp only
        obtain ⟨z, hz⟩ : ∃ z, 1 < (sd.origin_list.map Prod.snd).count z := by
          by_contra hno
          push_neg at hno
          exact hdup (List.nodup_iff_count_le_one.mpr fun a => by
            have := hno a; omega)
        have hzc : 1 < (sd.origin_list.flatMap
            (fun p => [p.1, p.2])).count z := by
          rw [count_chain]; omega
        have hzmem : z ∈ sd.origin_list.flatMap (fun p => [p.1, p.2]) :=
          List.count_pos_iff.mp (by omega)
        have hzmem2 : z ∈ sd.origin_list.map Prod.snd :=
          List.count_pos_iff.mp (by omega)
        cases hf : (sd.origin_list.map (fun p => p.2)).find?
            (fun org => ((sd.origin_list.flatMap (fun p => [p.1, p.2])).filter
              (fun org => 1 < (sd.origin_list.flatMap
                (fun p => [p.1, p.2])).count org)).contains org) with
        | some org => simp [hf]
        | none =>
          exfalso
          have := List.find?_eq_none.mp hf z (by simpa using hzmem2)
          apply this
          simp only [List.elem_iff, decide_eq_true_eq]
          exact List.mem_filter.mpr ⟨hzmem, by simpa using hzc⟩
  · unfold check_main_records_origin
    rw [if_neg (by simp [h1]), if_neg]
    · simp only
      rw [List.find?_eq_none.mpr]
      intro org horg
      simp only [List.elem_iff, decide_eq_true_eq]
      intro hmem
      have hcount := (List.mem_filter.mp hmem).2
      simp only [decide_eq_true_eq] at hcount
      have horg2 : org ∈ sd.origin_list.map Prod.snd := by simpa using horg
      have hsnd : (sd.origin_list.map Prod.snd).count org ≤ 1 :=
        List.nodup_iff_count_le_one.mp h2 org
      have hfst : (sd.origin_list.map Prod.fst).count org = 0 := by
        rw [List.count_eq_zero]
        intro hin
        obtain ⟨p, hp, hpe⟩ := List.mem_map.mp hin
        exact h3 p hp (hpe ▸ horg2)
      rw [count_chain] at hcount
      omega
    · simp only [ne_eq, not_not]
      rw [List.filter_eq_nil_iff]
      intro x hx
      simp only [decide_eq_true_eq, not_not]
      exact h4 x (List.mem_dedup.mp hx)

/-- The file used in the C7 witness: two records with distinct origins. -/
def c7wtext : String :=
  "@a\x7bR1,\n   colrev_origin  = \x7ba.bib/1\x7d,\n\x7d\n\n@a\x7bR2,\n   colrev_origin  = \x7ba.bib/2\x7d,\n\x7d\n"

/-- The status data scanned from c7wtext. -/
def c7wsd : StatusData :=
  { status_fields := ["NA", "NA"],
    status_transitions := [("R1", "load"), ("R2", "load")],
    IDs := ["R1", "R2"],
    record_links_in_bib := ["a.bib/1", "a.bib/2"],
    origin_list := [("R1", "a.bib/1"), ("R2", "a.bib/2")] }

/-- C7 witness: a concrete two-record store with distinct origins, ids
disjoint from origin tokens and known source entries passes the origin
validation. -/
theorem C7_witness :
    retrieve_status_data (fun _ => true) {} c7wtext = .ok c7wsd ∧
    check_main_records_origin ["a.bib/1", "a.bib/2"] c7wsd = .ok () :=
  ⟨rfl,
    ( C7_amended_theorem ["a.bib/1", "a.bib/2"] c7wsd).2.2 rfl (by decide)
      (by decide) (by decide)⟩

/-! ## Claim C2: the persisted-identifier check -/

/-- If some prior persisted pair is offended by the current data and
every prior persisted origin is still present, the outer loop of
check_persisted_id_changes raises PropagatedIDChange carrying the scan
notifications plus the id-change message for the first offending pair. -/
theorem checkPersistedAux_offender (scan : String → String → List String)
    (current : List (String × String)) :
    ∀ (priorList : List (String × String)) (o pid nid : String),
      (o, pid) ∈ priorList → (o, nid) ∈ current → nid ≠ pid →
      (∀ p ∈ priorList, p.1 ∈ current.map Prod.fst) →
      ∃ pid' nid', nid' ≠ pid' ∧
        checkPersistedAux scan current priorList =
          .error (.propagatedIDChange
            (scan pid' nid' ++ [changeMsg pid' nid'])) := by
  intro priorList
  induction priorList with
  | nil =>
    intro o pid nid hmem
    exact absurd hmem (List.not_mem_nil _)
  | cons hd tl ih =>
    intro o pid nid hmem hcur hne hall
    obtain ⟨po, pi⟩ := hd
    have hpres : po ∈ current.map Prod.fst :=
      hall (po, pi) (List.mem_cons_self _ _)
    unfold checkPersistedAux
    rw [if_neg (by
      simp only [not_not]
      exact List.elem_iff.mpr (by simpa using hpres))]
    cases hf : findOffender current po pi with
    | some n =>
      refine ⟨pi, n, ?_, rfl⟩
      obtain ⟨x, hx, hxe⟩ := Option.map_eq_some'.mp hf
      have := List.find?_some hx
      simp only [Bool.and_eq_true, beq_iff_eq, bne_iff_ne, ne_eq] at this
      rw [← hxe]
      exact this.2
    | none =>
      rcases List.mem_cons.mp hmem with heq | htl
      · exfalso
        obtain ⟨ho, hp⟩ := Prod.mk.inj heq
        subst ho
        subst hp
        have hnone :
            current.find? (fun x => x.1 == o && x.2 != pid) = none := by
          cases hfo : current.find? (fun x => x.1 == o && x.2 != pid) with
          | none => rfl
          | some x =>
            rw [findOffender, hfo] at hf
            simp at hf
        have h5 := List.find?_eq_none.mp hnone (o, nid) hcur
        simp only [Bool.and_eq_true, beq_iff_eq, bne_iff_ne, ne_eq, not_and,
          not_not] at h5
        exact hne (h5 trivial)
      · exact ih o pid nid htl hcur hne
          (fun p hp => hall p (List.mem_cons_of_mem _ hp))

/-- The prior revision file of the C2 counterexample: origin s.bib/1 has
reached rev_included, a state at or beyond md_processed. -/
def c2ptext : String :=
  "@a\x7bR1,\n   colrev_origin  = \x7bs.bib/1\x7d,\n   colrev_status  = \x7brev_included\x7d,\n\x7d\n"

/-- The current records file of the C2 counterexample: the same origin is
now mapped to the different record id R2. -/
def c2ctext : String :=
  "@a\x7bR2,\n   colrev_origin  = \x7bs.bib/1\x7d,\n   colrev_status  = \x7brev_included\x7d,\n\x7d\n"

/-- The status data scanned from c2ctext. -/
def c2sd : StatusData :=
  { status_fields := ["rev_included"],
    status_transitions := [("R2", "load")],
    IDs := ["R2"],
    record_links_in_bib := ["s.bib/1"],
    persisted_IDs := [("s.bib/1", "R2")],
    origin_list := [("R2", "s.bib/1")] }

/-- C2 counterexample: in the previous revision origin s.bib/1 had
status rev_included, which is at or beyond md_processed, and the current
records file maps that origin to the different id R2; yet the
persisted-id validation returns successfully instead of raising
PropagatedIDChange, because retrieve_prior records persisted ids only for
the status md_processed exactly.  So the claim as stated is false. -/
theorem C2_counterexample :
    "rev_included" ∈ RecordState.postMdProcessedStates
    ∧ (retrieve_prior c2ptext).colrev_status = [("s.bib/1", "rev_included")]
    ∧ (retrieve_prior c2ptext).persisted_IDs = []
    ∧ retrieve_status_data (fun _ => true) (retrieve_prior c2ptext) c2ctext =
        .ok c2sd
    ∧ c2sd.persisted_IDs = [("s.bib/1", "R2")]
    ∧ ("R2" : String) ≠ "R1"
    ∧ check_persisted_id_changes (fun _ _ => [])
        (retrieve_prior c2ptext) c2sd = .ok () :=
  ⟨by decide, rfl, rfl, rfl, rfl, by decide, rfl⟩

/-- C2 (amended): for every origin token whose status in the previous
committed revision was exactly md_processed (the only status
retrieve_prior persists): if the current records file still lists that
origin among its persisted origins but mapped to a different record id,
and no persisted origin has been removed, then check_persisted_id_changes
raises PropagatedIDChange carrying the notifications of the working-tree
text-artifact scan together with the message that the processed record's
id changed from the (first offending) prior id to the new id. -/
theorem C2_amended_theorem (scan : String → String → List String)
    (fileExists : String → Bool) (ptext ctext : String) (sd : StatusData)
    (o pid nid : String)
    (hsd : retrieve_status_data fileExists (retrieve_prior ptext) ctext =
      .ok sd)
    (h1 : (o, pid) ∈ (retrieve_prior ptext).persisted_IDs)
    (h2 : (o, nid) ∈ sd.persisted_IDs)
    (h3 : nid ≠ pid)
    (h4 : ∀ p ∈ (retrieve_prior ptext).persisted_IDs,
      p.1 ∈ sd.persisted_IDs.map Prod.fst) :
    ∃ pid' nid', nid' ≠ pid' ∧
      check_persisted_id_changes scan (retrieve_prior ptext) sd =
        .error (.propagatedIDChange
          (scan pid' nid' ++ [changeMsg pid' nid'])) :=
  checkPersistedAux_offender scan sd.persisted_IDs
    (retrieve_prior ptext).persisted_IDs o pid nid h1 h2 h3 h4

/-- The prior revision file of the C2 witness: origin s.bib/1 at
md_processed with id R1. -/
def c2wptext : String :=
  "@a\x7bR1,\n   colrev_origin  = \x7bs.bib/1\x7d,\n   colrev_status  = \x7bmd_processed\x7d,\n\x7d\n"

/-- The current records file of the C2 witness: the same origin now has
id R2, still at md_processed. -/
def c2wctext : String :=
  "@a\x7bR2,\n   colrev_origin  = \x7bs.bib/1\x7d,\n   colrev_status  = \x7bmd_processed\x7d,\n\x7d\n"

/-- The status data scanned from c2wctext. -/
def c2wsd : StatusData :=
  { status_fields := ["md_processed"],
    status_transitions := [("R2", "load")],
    IDs := ["R2"],
    record_links_in_bib := ["s.bib/1"],
    persisted_IDs := [("s.bib/1", "R2")],
    origin_list := [("R2", "s.bib/1")] }

/-! ## Claim C9: the record header scanner

Dataset.__read_record_header_items (src/colrev/dataset.py lines
684-745). -/

/-- A header item: the six extracted fields, each defaulting to NA. -/
structure HeaderItem where
  ID : String := "NA"
  colrev_origin : String := "NA"
  colrev_status : String := "NA"
  screening_criteria : String := "NA"
  file : String := "NA"
  colrev_masterdata_provenance : String := "NA"
deriving DecidableEq, Repr

/-- Split at the first occurrence of a separator sequence: the part
before and the part after, or none if the separator does not occur. -/
def splitFirstAux (sep : List Char) : List Char → Option (List Char × List Char)
  | [] => none
  | c :: rest =>
    if sep.isPrefixOf (c :: rest) then some ([], (c :: rest).drop sep.length)
    else (splitFirstAux sep rest).map (fun p => (c :: p.1, p.2))

/-- Python s.split(sep, 1) when sep occurs in s. -/
def splitFirst (sep s : String) : Option (String × String) :=
  (splitFirstAux sep.data s.data).map (fun p => (String.mk p.1, String.mk p.2))

/-- Python str.lstrip("{"): drop leading open braces. -/
def lstripBrace (s : String) : String :=
  String.mk (s.data.dropWhile (fun c => c = '{'))

/-- Python str.rstrip("},"): drop trailing close braces and commas. -/
def rstripBraceComma (s : String) : String :=
  String.mk ((s.data.reverse.dropWhile (fun c => c = '}' ∨ c = ',')).reverse)

/-- The value normalisation of parse_k_v:
value.lstrip().rstrip().lstrip("{").rstrip("},"). -/
def stripHeaderValue (v : String) : String :=
  rstripBraceComma (lstripBrace (pyStrip v))

/-- parse_k_v inside Dataset.__read_record_header_items: split on the
first " = " when present, otherwise the key is ID and the value is the
part after the first open brace. -/
def parse_k_v (s : String) : String × String :=
  match splitFirst " = " s with
  | some p => (pyStrip p.1, stripHeaderValue p.2)
  | none => ("ID", stripHeaderValue ((pySplitChar s '{').getD 1 ""))

/-- Python key in record_header_item followed by record_header_item[key]
= value: returns the updated item and whether the key was one of the six
required header fields. -/
def setItemField (item : HeaderItem) (key value : String) :
    HeaderItem × Bool :=
  if key = "ID" then ({ item with ID := value }, true)
  else if key = "colrev_origin" then
    ({ item with colrev_origin := value }, true)
  else if key = "colrev_status" then
    ({ item with colrev_status := value }, true)
  else if key = "screening_criteria" then
    ({ item with screening_criteria := value }, true)
  else if key = "file" then ({ item with file := value }, true)
  else if key = "colrev_masterdata_provenance" then
    ({ item with colrev_masterdata_provenance := value }, true)
  else (item, false)

/-- Python "@" in line[:2]. -/
def containsAtIn2 (l : String) : Bool :=
  (l.data.take 2).contains '@'

/-- The while loop of Dataset.__read_record_header_items, with state
(current item, counted header fields, pending key-value text, emitted
items).  The final accumulated item is appended unconditionally at end
of file, exactly as in the source. -/
def readHeaderAux : HeaderItem → Nat → String → List HeaderItem →
    List String → List HeaderItem
  | item, _, _, items, [] => items ++ [item]
  | item, count, kv, items, l :: rest =>
    if pyTake l 1 = "%" ∨ l = "\n" then readHeaderAux item count kv items rest
    else if 6 < count ∨ l = "\x7d" then
      readHeaderAux {} 0 kv (items ++ [item]) rest
    else
      let st :=
        if containsAtIn2 l ∧ item.ID ≠ "NA" then
          (({} : HeaderItem), 0, items ++ [item])
        else (item, count, items)
      let item := st.1
      let count := st.2.1
      let items := st.2.2
      let kv := kv ++ l
      if strContains "\x7d," l ∨ containsAtIn2 l then
        let p := parse_k_v kv
        let r := setItemField item p.1 p.2
        readHeaderAux r.1 (if r.2 then count + 1 else count) "" items rest
      else readHeaderAux item count kv items rest

/-- Dataset.__read_record_header_items over the lines of the records
file. -/
def read_record_header_items (lines : List String) : List HeaderItem :=
  readHeaderAux {} 0 "" [] lines

/-- C9: evaluating the header scan on files with zero bibliographic
entries.  The code returns a single sentinel HeaderItem with every field
NA, instead of the empty sequence required by the claim, both for the
empty file and for a file of only comment and blank lines; a one-entry
file is returned correctly, showing that the mid-loop flush guards on ID
being NA while the unconditional final append does not. -/
theorem C9_bug_eval :
    read_record_header_items (splitLinesKeep "") = [{}]
    ∧ read_record_header_items (splitLinesKeep "% comment\n\n") = [{}]
    ∧ ({} : HeaderItem).ID = "NA"
    ∧ read_record_header_items
        (splitLinesKeep "@a\x7bR1,\n   colrev_origin  = \x7bs.bib/1\x7d,\n\x7d\n") =
      [{ ID := "R1", colrev_origin := "s.bib/1" }] :=
  ⟨rfl, rfl, rfl, rfl⟩

/-- C2 witness: a concrete id change of a processed origin raises
PropagatedIDChange with the scan notifications and the change message. -/
theorem C2_witness :
    retrieve_status_data (fun _ => true) (retrieve_prior c2wptext)
        c2wctext = .ok c2wsd ∧
    ∃ pid' nid', nid' ≠ pid' ∧
      check_persisted_id_changes (fun a b => ["scan:" ++ a ++ ":" ++ b])
          (retrieve_prior c2wptext) c2wsd =
        .error (.propagatedIDChange
          (["scan:" ++ pid' ++ ":" ++ nid'] ++ [changeMsg pid' nid'])) :=
  ⟨rfl,
    C2_amended_theorem (fun a b => ["scan:" ++ a ++ ":" ++ b])
      (fun _ => true) c2wptext c2wctext c2wsd "s.bib/1" "R1" "R2" rfl
      (by decide) (by decide) (by decide) (by decide)⟩

/-! ## The patch writer

Dataset.update_record_by_id (src/colrev/dataset.py lines 842-877) and
Dataset.replace_field (lines 802-840), embedded as pure functions over
the list of readline lines of the records file.  update_record_by_id
returns the final byte content of the file; replace_field returns the
final lines together with the final state of the caller-supplied ids
list, which the Python code mutates in place. -/

/-- Drop lines until the next line with @ among its first three
characters (the inner while loop dropping the current record). -/
def dropToNextAt : List String → List String
  | [] => []
  | l :: rest => if containsAtIn3 l then l :: rest else dropToNextAt rest

/-- The scan loop of Dataset.update_record_by_id: track the current
record id; on the first line at which it equals the target id, the file
becomes everything before that line, the written replacement, and the
tail from the next entry start on.  None when the id is never seen. -/
def updLoop (tid written : String) : String → List String → Option String
  | _, [] => none
  | cur, l :: rest =>
    let cur2 := if containsAtIn3 l then extractBraceComma l else cur
    if cur2 = tid then some (written ++ joinStr (dropToNextAt rest))
    else (updLoop tid written cur2 rest).map (fun s => l ++ s)

/-- Dataset.update_record_by_id: repl is the serialized replacement
record (parse_bibtex_str of the one-record dict); with delete set the
record is dropped instead.  Returns the final file content; if the id is
not found before end of file the content is unchanged. -/
def update_record_by_id (new_record_ID repl : String) (delete : Bool)
    (lines : List String) : String :=
  (updLoop new_record_ID (if delete then "" else repl ++ "\n") "NA"
    lines).getD (joinStr lines)

/-- The field-line test of Dataset.replace_field:
line.lstrip()[:len(key)] == key. -/
def keyMatch (key l : String) : Bool :=
  pyTake (pyLstrip l) key.length == key

/-- The replacement line of Dataset.replace_field:
line[:line.find(b"{") + 1] + val + b"},\n". -/
def mkFieldReplacement (l val : String) : String :=
  pySlice l 0 (pyFind l '{' + 1) ++ val ++ "\x7d,\n"

/-- The scan loop of Dataset.replace_field.  On a replacement of equal
byte length the line is overwritten in place; otherwise the tail is
rewritten and the internal readline after the seek makes the scan skip
one line.  The id is removed from the ids list and the loop returns as
soon as the list is empty. -/
def replaceFieldLoop (key val : String) :
    String → List String → List String → List String × List String
  | _, ids, [] => ([], ids)
  | cur, ids, l :: rest =>
    let cur2 := if containsAtIn3 l then extractBraceComma l else cur
    if ids.contains cur2 ∧ keyMatch key l then
      let l2 := mkFieldReplacement l val
      let ids2 := ids.erase cur2
      if ids2 = [] then (l2 :: rest, ids2)
      else if l2.utf8ByteSize = l.utf8ByteSize then
        let r := replaceFieldLoop key val cur2 ids2 rest
        (l2 :: r.1, r.2)
      else
        match rest with
        | [] => ([l2], ids2)
        | skip :: rest2 =>
          let r := replaceFieldLoop key val cur2 ids2 rest2
          (l2 :: skip :: r.1, r.2)
    else
      let r := replaceFieldLoop key val cur2 ids rest
      (l :: r.1, r.2)

/-- Dataset.replace_field: returns the final lines of the file and the
final state of the caller-supplied ids list. -/
def replace_field (ids : List String) (key val_str : String)
    (lines : List String) : List String × List String :=
  replaceFieldLoop key val_str "NA" ids lines

/-- Each line of the file paired with the current record id the scan
loops associate with it (the id extracted from the closest preceding
entry-start line, NA before the first). -/
def scanCurIds (cur : String) : List String → List (String × String)
  | [] => []
  | l :: rest =>
    let cur2 := if containsAtIn3 l then extractBraceComma l else cur
    (cur2, l) :: scanCurIds cur2 rest

/-! ## Claim C4: missing patch targets are silent no-ops -/

/-- If no scanned line ever yields the target id, the update scan finds
nothing. -/
theorem updLoop_none (tid w : String) :
    ∀ (lines : List String) (cur : String), cur ≠ tid →
      (∀ l ∈ lines, containsAtIn3 l = true → extractBraceComma l ≠ tid) →
      updLoop tid w cur lines = none := by
  intro lines
  induction lines with
  | nil => intro cur _ _; rfl
  | cons l rest ih =>
    intro cur hcur h
    have hcur2 : (if containsAtIn3 l then extractBraceComma l else cur) ≠
        tid := by
      by_cases hat : containsAtIn3 l = true
      · simpa [hat] using h l (List.mem_cons_self _ _) hat
      · simpa [hat] using hcur
    simp only [updLoop]
    rw [if_neg hcur2, ih _ hcur2
      (fun l' hl' => h l' (List.mem_cons_of_mem _ hl'))]
    rfl

/-- Unfolding equation of replaceFieldLoop at a cons line. -/
theorem replaceFieldLoop_cons (key val cur : String) (ids : List String)
    (l : String) (rest : List String) :
    replaceFieldLoop key val cur ids (l :: rest) =
      (let cur2 := if containsAtIn3 l then extractBraceComma l else cur
       if ids.contains cur2 ∧ keyMatch key l then
         let l2 := mkFieldReplacement l val
         let ids2 := ids.erase cur2
         if ids2 = [] then (l2 :: rest, ids2)
         else if l2.utf8ByteSize = l.utf8ByteSize then
           let r := replaceFieldLoop key val cur2 ids2 rest
           (l2 :: r.1, r.2)
         else
           match rest with
           | [] => ([l2], ids2)
           | skip :: rest2 =>
             let r := replaceFieldLoop key val cur2 ids2 rest2
             (l2 :: skip :: r.1, r.2)
       else
         let r := replaceFieldLoop key val cur2 ids rest
         (l :: r.1, r.2)) := by
  cases rest <;> rfl

/-- If no scanned (current id, line) pair matches both the ids list and
the field key, the replace_field scan changes nothing. -/
theorem replaceFieldLoop_noop (key val : String) (ids : List String) :
    ∀ (lines : List String) (cur : String),
      (∀ p ∈ scanCurIds cur lines,
        ids.contains p.1 = true → keyMatch key p.2 = false) →
      replaceFieldLoop key val cur ids lines = (lines, ids) := by
  intro lines
  induction lines with
  | nil => intro cur _; rfl
  | cons l rest ih =>
    intro cur h
    have hhead := h
      ((if containsAtIn3 l then extractBraceComma l else cur), l)
      (by simp [scanCurIds])
    rw [replaceFieldLoop_cons]
    dsimp only
    rw [if_neg (by
      intro hc
      rw [hhead hc.1] at hc
      exact Bool.false_ne_true hc.2)]
    rw [ih _ (fun p hp => h p (by simp [scanCurIds, hp]))]

/-- C4: for a records file containing no entry whose scanned id equals
the requested target id, update_record_by_id returns the file content
byte-for-byte unchanged; and whenever no line of the file is
simultaneously inside a record whose id is in the requested list and a
matching field line, replace_field leaves both the file and the ids list
unchanged.  Both calls terminate normally without an error. -/
theorem C4_theorem (tid repl key val : String) (delete : Bool)
    (lines : List String) :
    ((tid ≠ "NA" ∧ ∀ l ∈ lines, containsAtIn3 l = true →
        extractBraceComma l ≠ tid) →
      update_record_by_id tid repl delete lines = joinStr lines)
    ∧ ((∀ p ∈ scanCurIds "NA" lines,
        ([tid] : List String).contains p.1 = true →
        keyMatch key p.2 = false) →
      replace_field [tid] key val lines = (lines, [tid])) := by
  constructor
  · intro ⟨hna, h⟩
    unfold update_record_by_id
    rw [updLoop_none _ _ lines "NA" (fun he => hna he.symm) h]
    rfl
  · intro h
    exact replaceFieldLoop_noop key val [tid] lines "NA" h

/-- The file of the C4 witness. -/
def c4lines : List String :=
  splitLinesKeep "@a\x7bR1,\n   file  = \x7bold\x7d,\n\x7d\n"

/-- C4 witness: patching the absent id R9 leaves the concrete file and
the ids list unchanged. -/
theorem C4_witness :
    update_record_by_id "R9" "@a\x7bR9,\n\x7d\n" false c4lines =
      joinStr c4lines ∧
    replace_field ["R9"] "file" "x" c4lines = (c4lines, ["R9"]) := by
  have h := C4_theorem "R9" "@a\x7bR9,\n\x7d\n" "file" "x" false c4lines
  exact ⟨h.1 ⟨by decide, by decide⟩, h.2 (by decide)⟩

/-! ## Bibliographic entries as line blocks

A well-formed records file is a sequence of entries; each entry is one
entry-start line followed by body lines that do not start a new entry.
This is the shape both the readers and the patch writer assume. -/

/-- One entry of the records file: the entry-start line and the
following lines (field lines, the closing brace line, and any blank
separator lines). -/
structure BibEntry where
  id : String
  header : String
  body : List String
deriving DecidableEq, Repr

/-- The lines of an entry. -/
def BibEntry.lines (e : BibEntry) : List String :=
  e.header :: e.body

/-- The lines of a records file made of the given entries. -/
def fileLines (es : List BibEntry) : List String :=
  es.flatMap BibEntry.lines

/-- Well-formedness used by the byte scans: the header starts with @ and
carries the entry's id between its brace and comma, and no body line has
@ among its first three characters. -/
def WfScanEntry (e : BibEntry) : Prop :=
  pyTake e.header 1 = "@" ∧ extractBraceComma e.header = e.id ∧
  ∀ l ∈ e.body, containsAtIn3 l = false

/-- A line whose first character is @ has @ among its first three. -/
theorem containsAtIn3_of_head {l : String} (h : pyTake l 1 = "@") :
    containsAtIn3 l = true := by
  have hd : l.data.take 1 = ['@'] := by
    have := congrArg String.data h
    simpa [pyTake] using this
  cases hl : l.data with
  | nil => rw [hl] at hd; simp at hd
  | cons c rest =>
    rw [hl] at hd
    simp at hd
    simp [containsAtIn3, hl, hd]

/-! ## Claim C10: replace_field mutates the caller's ids list -/

/-- The effect of scanning one entry on the ids list: the id is removed
iff it is still requested and the entry contains a matching field line. -/
def afterEntry (key : String) (ids : List String) (e : BibEntry) :
    List String :=
  if ids.contains e.id && e.body.any (keyMatch key) then ids.erase e.id
  else ids

/-- With an empty ids list the scan never matches. -/
theorem replaceFieldLoop_nil_ids (key val : String) :
    ∀ (ls : List String) (cur : String),
      (replaceFieldLoop key val cur [] ls).2 = [] := by
  intro ls
  induction ls with
  | nil => intro cur; rfl
  | cons l rest ih =>
    intro cur
    rw [replaceFieldLoop_cons]
    dsimp only
    rw [if_neg (by simp)]
    exact ih _

/-- Lines that start no entry and whose current record id is no longer
requested pass through without affecting the ids list. -/
theorem replaceFieldLoop_pass (key val : String) :
    ∀ (ls rest : List String) (cur : String) (ids : List String),
      (∀ l ∈ ls, containsAtIn3 l = false) → ids.contains cur = false →
      (replaceFieldLoop key val cur ids (ls ++ rest)).2 =
        (replaceFieldLoop key val cur ids rest).2 := by
  intro ls
  induction ls with
  | nil => intro rest cur ids _ _; rfl
  | cons l lt ih =>
    intro rest cur ids hat hc
    rw [List.cons_append, replaceFieldLoop_cons]
    simp only [hat l (List.mem_cons_self _ _), Bool.false_eq_true, if_false]
    rw [if_neg (by
      intro hcon
      rw [hc] at hcon
      exact Bool.false_ne_true hcon.1)]
    exact ih rest cur ids (fun x hx => hat x (List.mem_cons_of_mem _ hx)) hc

/-- Scanning the body of the entry whose id is still requested: the ids
list loses that id iff some body line matches the key; the skipped line
after an unequal-length rewrite is harmless because the id has already
been removed and the last body line never matches the key. -/
theorem replaceFieldLoop_body (key val : String) :
    ∀ (body rest : List String) (cur : String) (ids : List String),
      ids.contains cur = true → ids.Nodup →
      (∀ l ∈ body, containsAtIn3 l = false) →
      (∀ lb, body.getLast? = some lb → keyMatch key lb = false) →
      (replaceFieldLoop key val cur ids (body ++ rest)).2 =
        (replaceFieldLoop key val cur
          (if body.any (keyMatch key) then ids.erase cur else ids) rest).2 := by
  intro body
  induction body with
  | nil =>
    intro rest cur ids _ _ _ _
    simp
  | cons l bt ih =>
    intro rest cur ids hc hnd hat hlast
    have hcurat : containsAtIn3 l = false := hat l (List.mem_cons_self _ _)
    have hne : cur ∉ ids.erase cur := fun hm =>
      ((List.Nodup.mem_erase_iff hnd).mp hm).1 rfl
    have hne2 : (ids.erase cur).contains cur = false := by
      cases hcc : (ids.erase cur).contains cur with
      | false => rfl
      | true => exact absurd (List.elem_iff.mp hcc) hne
    rw [List.cons_append, replaceFieldLoop_cons]
    simp only [hcurat, Bool.false_eq_true, if_false]
    cases hkm : keyMatch key l with
    | false =>
      rw [if_neg (fun hcon => Bool.false_ne_true hcon.2)]
      have hih := ih rest cur ids hc hnd
        (fun x hx => hat x (List.mem_cons_of_mem _ hx))
        (fun lb hlb => hlast lb (by
          cases bt with
          | nil => simp at hlb
          | cons b bt2 => simpa using hlb))
      simpa [List.any_cons, hkm] using hih
    | true =>
      rw [if_pos ⟨hc, rfl⟩]
      cases bt with
      | nil =>
        exact absurd (hlast l rfl) (by simp [hkm])
      | cons skip bt2 =>
        have hbt : ∀ x ∈ skip :: bt2, containsAtIn3 x = false :=
          fun x hx => hat x (List.mem_cons_of_mem _ hx)
        simp only [List.any_cons, hkm, Bool.true_or, if_true]
        by_cases hemp : ids.erase cur = []
        · rw [if_pos hemp]
          rw [hemp, replaceFieldLoop_nil_ids]
        · rw [if_neg hemp]
          by_cases hsize : (mkFieldReplacement l val).utf8ByteSize =
              l.utf8ByteSize
          · rw [if_pos hsize]
            exact replaceFieldLoop_pass key val (skip :: bt2) rest cur
              (ids.erase cur) hbt hne2
          · rw [if_neg hsize]
            have hp := replaceFieldLoop_pass key val bt2 rest cur
              (ids.erase cur)
              (fun x hx => hbt x (List.mem_cons_of_mem _ hx)) hne2
            simpa using hp

/-- Scanning a sequence of well-formed entries folds the per-entry
effect over the requested ids list. -/
theorem replaceFieldLoop_entries (key val : String) :
    ∀ (es : List BibEntry) (cur : String) (ids : List String),
      ids.Nodup →
      (∀ e ∈ es, WfScanEntry e) →
      (∀ e ∈ es, keyMatch key e.header = false) →
      (∀ e ∈ es, ∀ lb, e.body.getLast? = some lb →
        keyMatch key lb = false) →
      (replaceFieldLoop key val cur ids (fileLines es)).2 =
        es.foldl (afterEntry key) ids := by
  intro es
  induction es with
  | nil => intro cur ids _ _ _ _; rfl
  | cons e tl ih =>
    intro cur ids hnd hwf hkh hkl
    obtain ⟨hh1, hh2, hh3⟩ := hwf e (List.mem_cons_self _ _)
    have hat : containsAtIn3 e.header = true := containsAtIn3_of_head hh1
    have hfl : fileLines (e :: tl) =
        e.header :: (e.body ++ fileLines tl) := by
      simp [fileLines, BibEntry.lines]
    rw [hfl, replaceFieldLoop_cons]
    simp only [hat, if_true, hh2]
    rw [if_neg (fun hcon => by
      rw [hkh e (List.mem_cons_self _ _)] at hcon
      exact Bool.false_ne_true hcon.2)]
    have htl : ∀ x ∈ tl, WfScanEntry x :=
      fun x hx => hwf x (List.mem_cons_of_mem _ hx)
    have htlh : ∀ x ∈ tl, keyMatch key x.header = false :=
      fun x hx => hkh x (List.mem_cons_of_mem _ hx)
    have htll : ∀ x ∈ tl, ∀ lb, x.body.getLast? = some lb →
        keyMatch key lb = false :=
      fun x hx => hkl x (List.mem_cons_of_mem _ hx)
    rw [List.foldl_cons]
    cases hmem : ids.contains e.id with
    | true =>
      have hb := replaceFieldLoop_body key val e.body (fileLines tl) e.id
        ids hmem hnd hh3 (hkl e (List.mem_cons_self _ _))
      dsimp only
      rw [hb]
      have hnd2 : (if e.body.any (keyMatch key) = true then ids.erase e.id
          else ids).Nodup := by
        by_cases hany : e.body.any (keyMatch key) = true
        · simpa [hany] using hnd.erase e.id
        · simpa [hany] using hnd
      rw [ih e.id _ hnd2 htl htlh htll]
      congr 1
      simp [afterEntry, hmem, List.elem_iff.mp hmem]
    | false =>
      dsimp only
      rw [replaceFieldLoop_pass key val e.body (fileLines tl) e.id ids hh3
        hmem]
      rw [ih e.id ids hnd htl htlh htll]
      congr 1
      have hnm : e.id ∉ ids := fun h =>
        Bool.false_ne_true (hmem.symm.trans (List.elem_iff.mpr h))
      simp [afterEntry, hmem, hnm]

/-- Folding the per-entry effect removes exactly the requested ids whose
entry contains a matching field line. -/
theorem foldl_afterEntry_filter (key : String) :
    ∀ (es : List BibEntry) (ids : List String), ids.Nodup →
      es.foldl (afterEntry key) ids =
        ids.filter (fun i =>
          !(es.any (fun e => e.id == i && e.body.any (keyMatch key)))) := by
  intro es
  induction es with
  | nil => intro ids _; simp
  | cons e tl ih =>
    intro ids hnd
    rw [List.foldl_cons]
    cases h1 : ids.contains e.id && e.body.any (keyMatch key) with
    | true =>
      obtain ⟨hc, hb⟩ := Bool.and_eq_true_iff.mp h1
      rw [show afterEntry key ids e = ids.erase e.id from by
        simp only [afterEntry]
        rw [h1]
        simp]
      rw [ih _ (hnd.erase _), hnd.erase_eq_filter, List.filter_filter]
      apply List.filter_congr
      intro i _
      by_cases hEq : e.id = i
      · subst hEq
        simp [hb]
      · have h2 : (e.id == i) = false := beq_eq_false_iff_ne.mpr hEq
        have h3 : (i != e.id) = true := bne_iff_ne.mpr (Ne.symm hEq)
        simp [h2, h3]
    | false =>
      rw [show afterEntry key ids e = ids from by
        simp only [afterEntry]
        rw [h1]
        simp]
      rw [ih _ hnd]
      apply List.filter_congr
      intro i hi
      by_cases hEq : e.id = i
      · subst hEq
        have hc : ids.contains e.id = true := List.elem_iff.mpr hi
        have hany : e.body.any (keyMatch key) = false := by
          cases hb2 : e.body.any (keyMatch key) with
          | false => rfl
          | true =>
            rw [hc, hb2] at h1
            exact absurd h1 (by simp)
        simp [hany]
      · have h2 : (e.id == i) = false := beq_eq_false_iff_ne.mpr hEq
        simp [h2]

/-- C10: replace_field removes from the caller-supplied ids list exactly
those ids whose record is found with a matching field line; after a call
in which every requested id was found the list is empty. -/
theorem C10_theorem (key val : String) (ids : List String)
    (es : List BibEntry)
    (hnodup : ids.Nodup)
    (hwf : ∀ e ∈ es, WfScanEntry e)
    (hkh : ∀ e ∈ es, keyMatch key e.header = false)
    (hkl : ∀ e ∈ es, ∀ lb, e.body.getLast? = some lb →
      keyMatch key lb = false) :
    (replace_field ids key val (fileLines es)).2 =
      ids.filter (fun i =>
        !(es.any (fun e => e.id == i && e.body.any (keyMatch key))))
    ∧ ((∀ i ∈ ids,
        es.any (fun e => e.id == i && e.body.any (keyMatch key)) = true) →
      (replace_field ids key val (fileLines es)).2 = []) := by
  have hmain : (replace_field ids key val (fileLines es)).2 =
      ids.filter (fun i =>
        !(es.any (fun e => e.id == i && e.body.any (keyMatch key)))) := by
    rw [replace_field,
      replaceFieldLoop_entries key val es "NA" ids hnodup hwf hkh hkl,
      foldl_afterEntry_filter key es ids hnodup]
  refine ⟨hmain, fun hall => ?_⟩
  rw [hmain, List.filter_eq_nil_iff]
  intro i hi
  simp [hall i hi]

/-- The entries of the C10 witness: R1 has a file field line, R2 does
not. -/
def c10es : List BibEntry :=
  [⟨"R1", "@a\x7bR1,\n", ["   file  = \x7bold\x7d,\n", "\x7d\n"]⟩,
   ⟨"R2", "@a\x7bR2,\n", ["\x7d\n"]⟩]

/-- C10 witness: requesting R1 and R2, only R1 is found with the field,
so the returned ids list is exactly the not-found R2. -/
theorem C10_witness :
    (replace_field ["R1", "R2"] "file" "longreplacementvalue"
      (fileLines c10es)).2 = ["R2"] := by
  have h := ( C10_theorem "file" "longreplacementvalue" ["R1", "R2"] c10es
    (by decide)
    (by
      intro e he
      fin_cases he <;> exact ⟨by decide, by decide, by decide⟩)
    (by decide) (by decide)).1
  rw [h]
  rfl

/-! ## Claim C3: update_record_by_id is a structural replacement

Supporting lemmas: concatenation and line-splitting facts, and a
characterisation of the record-string reader on well-formed entry
sequences. -/

/-- Remaking a string from its characters is the identity. -/
theorem mk_data (s : String) : String.mk s.data = s := by
  cases s
  rfl

/-- The characters of a concatenation. -/
theorem str_data_append (a b : String) : (a ++ b).data = a.data ++ b.data :=
  rfl

/-- Appending the empty string is the identity. -/
theorem str_append_empty (s : String) : s ++ "" = s := by
  cases s with
  | mk d => exact congrArg String.mk (List.append_nil d)

/-- The empty string is a left identity. -/
theorem str_empty_append (s : String) : "" ++ s = s := by
  cases s with
  | mk d => rfl

@[simp]
theorem joinStr_nil : joinStr [] = "" := rfl

@[simp]
theorem joinStr_cons (l : String) (ls : List String) :
    joinStr (l :: ls) = l ++ joinStr ls := rfl

theorem joinStr_append (a b : List String) :
    joinStr (a ++ b) = joinStr a ++ joinStr b := by
  induction a with
  | nil => rw [List.nil_append, joinStr_nil, str_empty_append]
  | cons l lt ih =>
    rw [List.cons_append, joinStr_cons, joinStr_cons, ih,
      String.append_assoc]

/-- A readline-style line: it ends with the newline terminator and has
no interior newline. -/
def NlLine (l : String) : Prop :=
  l.data.getLast? = some '\n' ∧ '\n' ∉ l.data.dropLast

instance : DecidablePred NlLine := fun l => by
  unfold NlLine
  infer_instance

/-- A readline-style line decomposes as its body plus the terminator. -/
theorem NlLine.decompose {l : String} (h : NlLine l) :
    ∃ w, l.data = w ++ ['\n'] ∧ '\n' ∉ w := by
  obtain ⟨h1, h2⟩ := h
  have hne : l.data ≠ [] := by
    intro h0
    rw [h0] at h1
    simp at h1
  refine ⟨l.data.dropLast, ?_, h2⟩
  have h3 := (List.dropLast_append_getLast hne).symm
  rw [List.getLast?_eq_getLast _ hne, Option.some.injEq] at h1
  rw [h1] at h3
  exact h3

/-- Splitting at the next newline of a line-plus-rest character list. -/
theorem splitLinesKeepAux_line :
    ∀ (w : List Char) (acc rest : List Char), '\n' ∉ w →
      splitLinesKeepAux acc (w ++ '\n' :: rest) =
        String.mk (acc.reverse ++ (w ++ ['\n'])) :: splitLinesKeepAux [] rest := by
  intro w
  induction w with
  | nil =>
    intro acc rest _
    simp [splitLinesKeepAux]
  | cons c w2 ih =>
    intro acc rest hni
    have hc : ¬ c = '\n' := by
      intro hc
      exact hni (hc ▸ List.mem_cons_self _ _)
    rw [List.cons_append]
    show splitLinesKeepAux acc (c :: (w2 ++ '\n' :: rest)) = _
    rw [splitLinesKeepAux, if_neg hc,
      ih (c :: acc) rest (fun hm => hni (List.mem_cons_of_mem _ hm))]
    simp

/-- Splitting the concatenation of readline-style lines recovers them. -/
theorem splitLinesKeep_joinStr :
    ∀ (ls : List String), (∀ l ∈ ls, NlLine l) →
      splitLinesKeep (joinStr ls) = ls := by
  intro ls
  induction ls with
  | nil => intro _; rfl
  | cons l lt ih =>
    intro h
    obtain ⟨w, hw, hni⟩ := (h l (List.mem_cons_self _ _)).decompose
    rw [joinStr_cons]
    unfold splitLinesKeep
    rw [str_data_append, hw, List.append_assoc, List.singleton_append,
      splitLinesKeepAux_line w [] _ hni]
    simp only [List.reverse_nil, List.nil_append]
    rw [← hw, mk_data]
    exact congrArg (l :: ·) (ih (fun x hx => h x (List.mem_cons_of_mem _ hx)))

/-- Whether the record-string reader keeps a line (it skips comment
lines and blank lines). -/
def keepLine (l : String) : Bool :=
  !((pyTake l 1 == "%") || (l == "\n"))

/-- The record string the reader produces for one entry. -/
def recStr (e : BibEntry) : String :=
  e.header ++ joinStr (e.body.filter keepLine)

/-- Well-formedness used by the record-string reader: the header starts
with @ and no body line has @ among its first three characters. -/
def WfReadEntry (e : BibEntry) : Prop :=
  pyTake e.header 1 = "@" ∧ ∀ l ∈ e.body, containsAtIn3 l = false

/-- A line without @ among its first three characters does not start
with @. -/
theorem not_at_head_of_not_containsAtIn3 {l : String}
    (h : containsAtIn3 l = false) : ¬ pyTake l 1 = "@" := by
  intro hh
  exact Bool.false_ne_true (h.symm.trans (containsAtIn3_of_head hh))

/-- Reading body lines accumulates the kept ones into the current
record string. -/
theorem readAux_body :
    ∀ (body : List String) (rest : List String) (data : String)
      (first : Bool),
      (∀ l ∈ body, containsAtIn3 l = false) →
      readNextRecordStrAux data first (body ++ rest) =
        readNextRecordStrAux (data ++ joinStr (body.filter keepLine)) first
          rest := by
  intro body
  induction body with
  | nil =>
    intro rest data first _
    simp [str_append_empty]
  | cons l bt ih =>
    intro rest data first hat
    have hnat : ¬ pyTake l 1 = "@" :=
      not_at_head_of_not_containsAtIn3 (hat l (List.mem_cons_self _ _))
    rw [List.cons_append]
    by_cases hskip : pyTake l 1 = "%" ∨ l = "\n"
    · rw [readNextRecordStrAux, if_pos hskip]
      have hkl : keepLine l = false := by
        rcases hskip with h1 | h1 <;> simp [keepLine, h1]
      rw [ih rest data first (fun x hx => hat x (List.mem_cons_of_mem _ hx))]
      simp [List.filter_cons, hkl]
    · rw [readNextRecordStrAux, if_neg hskip, if_pos hnat]
      have hkl : keepLine l = true := by
        simp only [keepLine]
        simpa using hskip
      rw [ih rest (data ++ l) first
        (fun x hx => hat x (List.mem_cons_of_mem _ hx))]
      simp [List.filter_cons, hkl, String.append_assoc]

/-- Reading a well-formed entry sequence after the first entry has been
opened yields the pending record string and one string per entry. -/
theorem readAux_entries :
    ∀ (es : List BibEntry) (data : String),
      (∀ e ∈ es, WfReadEntry e) →
      readNextRecordStrAux data true (fileLines es) =
        data :: es.map recStr := by
  intro es
  induction es with
  | nil => intro data _; rfl
  | cons e tl ih =>
    intro data hwf
    obtain ⟨hh, hb⟩ := hwf e (List.mem_cons_self _ _)
    have hfl : fileLines (e :: tl) = e.header :: (e.body ++ fileLines tl) := by
      simp [fileLines, BibEntry.lines]
    have hnskip : ¬ (pyTake e.header 1 = "%" ∨ e.header = "\n") := by
      rintro (h1 | h1)
      · rw [hh] at h1
        exact absurd h1 (by decide)
      · rw [h1] at hh
        exact absurd hh (by decide)
    rw [hfl, readNextRecordStrAux, if_neg hnskip, if_neg (by
      simp only [ne_eq, not_not]
      exact hh)]
    simp only [if_pos rfl]
    rw [readAux_body e.body (fileLines tl) e.header true hb,
      ih _ (fun x hx => hwf x (List.mem_cons_of_mem _ hx))]
    rfl

/-- The record-string reader on a nonempty well-formed entry sequence
yields exactly one record string per entry. -/
theorem read_fileLines (es : List BibEntry) (hne : es ≠ [])
    (hwf : ∀ e ∈ es, WfReadEntry e) :
    read_next_record_str (fileLines es) = es.map recStr := by
  cases es with
  | nil => exact absurd rfl hne
  | cons e tl =>
    obtain ⟨hh, hb⟩ := hwf e (List.mem_cons_self _ _)
    have hfl : fileLines (e :: tl) = e.header :: (e.body ++ fileLines tl) := by
      simp [fileLines, BibEntry.lines]
    have hnskip : ¬ (pyTake e.header 1 = "%" ∨ e.header = "\n") := by
      rintro (h1 | h1)
      · rw [hh] at h1
        exact absurd h1 (by decide)
      · rw [h1] at hh
        exact absurd hh (by decide)
    rw [read_next_record_str, hfl, readNextRecordStrAux, if_neg hnskip,
      if_neg (by
        simp only [ne_eq, not_not]
        exact hh)]
    simp only [Bool.false_eq_true, if_false]
    rw [readAux_body e.body (fileLines tl) e.header true hb,
      readAux_entries tl _ (fun x hx => hwf x (List.mem_cons_of_mem _ hx))]
    rfl

/-- Lines that start no entry are dropped by the tail scan. -/
theorem dropToNextAt_append (ls rest : List String)
    (h : ∀ l ∈ ls, containsAtIn3 l = false) :
    dropToNextAt (ls ++ rest) = dropToNextAt rest := by
  induction ls with
  | nil => rfl
  | cons l lt ih =>
    rw [List.cons_append, dropToNextAt,
      if_neg (by simp [h l (List.mem_cons_self _ _)])]
    exact ih (fun x hx => h x (List.mem_cons_of_mem _ hx))

/-- The tail scan keeps a line sequence that starts at an entry
header. -/
theorem dropToNextAt_fileLines (es : List BibEntry)
    (h : ∀ e ∈ es, pyTake e.header 1 = "@") :
    dropToNextAt (fileLines es) = fileLines es := by
  cases es with
  | nil => rfl
  | cons e tl =>
    have hfl : fileLines (e :: tl) = e.header :: (e.body ++ fileLines tl) := by
      simp [fileLines, BibEntry.lines]
    rw [hfl, dropToNextAt,
      if_pos (containsAtIn3_of_head (h e (List.mem_cons_self _ _)))]

/-- The update scan passes over lines that start no entry while the
current id is not the target, prefixing them to any later result. -/
theorem updLoop_pass (tid w : String) :
    ∀ (ls rest : List String) (cur : String),
      (∀ l ∈ ls, containsAtIn3 l = false) → cur ≠ tid →
      updLoop tid w cur (ls ++ rest) =
        (updLoop tid w cur rest).map (fun s => joinStr ls ++ s) := by
  intro ls
  induction ls with
  | nil =>
    intro rest cur _ _
    rw [List.nil_append]
    cases h : updLoop tid w cur rest <;> simp [h, str_empty_append]
  | cons l lt ih =>
    intro rest cur hat hcur
    rw [List.cons_append, updLoop]
    simp only [hat l (List.mem_cons_self _ _), Bool.false_eq_true, if_false]
    rw [if_neg hcur,
      ih rest cur (fun x hx => hat x (List.mem_cons_of_mem _ hx)) hcur,
      Option.map_map]
    congr 1
    funext s
    simp [String.append_assoc]

/-- The update scan on a well-formed entry sequence: the entries before
the target pass through unchanged, the target entry's lines are replaced
by the written bytes, and the remaining entries follow. -/
theorem updLoop_entries (w : String) :
    ∀ (front : List BibEntry) (target : BibEntry) (back : List BibEntry)
      (cur : String),
      (∀ e ∈ front, WfScanEntry e) →
      pyTake target.header 1 = "@" →
      extractBraceComma target.header = target.id →
      (∀ l ∈ target.body, containsAtIn3 l = false) →
      (∀ e ∈ back, pyTake e.header 1 = "@") →
      (∀ e ∈ front, e.id ≠ target.id) →
      updLoop target.id w cur (fileLines (front ++ target :: back)) =
        some (joinStr (fileLines front) ++ (w ++ joinStr (fileLines back))) := by
  intro front
  induction front with
  | nil =>
    intro target back cur _ hth hte htb hback _
    have hfl : fileLines ([] ++ target :: back) =
        target.header :: (target.body ++ fileLines back) := by
      simp [fileLines, BibEntry.lines]
    rw [hfl, updLoop]
    simp only [containsAtIn3_of_head hth, if_true, hte, if_pos rfl]
    rw [dropToNextAt_append _ _ htb, dropToNextAt_fileLines _ hback]
    rw [show fileLines ([] : List BibEntry) = [] from rfl, joinStr_nil,
      str_empty_append]
  | cons e ft ih =>
    intro target back cur hwf hth hte htb hback hfr
    obtain ⟨hh1, hh2, hh3⟩ := hwf e (List.mem_cons_self _ _)
    have hne : e.id ≠ target.id := hfr e (List.mem_cons_self _ _)
    have hfl : fileLines ((e :: ft) ++ target :: back) =
        e.header :: (e.body ++ fileLines (ft ++ target :: back)) := by
      simp [fileLines, BibEntry.lines]
    rw [hfl, updLoop]
    simp only [containsAtIn3_of_head hh1, if_true, hh2]
    rw [if_neg hne,
      updLoop_pass target.id w e.body _ e.id hh3 hne,
      ih target back e.id (fun x hx => hwf x (List.mem_cons_of_mem _ hx))
        hth hte htb hback (fun x hx => hfr x (List.mem_cons_of_mem _ hx))]
    simp only [Option.map_map, Option.map_some, Function.comp]
    congr 1
    have hfl2 : fileLines (e :: ft) = e.lines ++ fileLines ft := by
      simp [fileLines]
    rw [hfl2, joinStr_append]
    simp [BibEntry.lines, String.append_assoc]

/-- Setting the element right after a prefix. -/
theorem set_at_append_length {α : Type} (a : List α) (x v : α)
    (b : List α) : (a ++ x :: b).set a.length v = a ++ v :: b := by
  induction a with
  | nil => rfl
  | cons y yt ih => simpa using ih

/-- Full well-formedness of an entry: its header starts with @ and
carries the id, no body line has @ among its first three characters, and
every line is a readline-style line ending in its newline. -/
def WfNlEntry (e : BibEntry) : Prop :=
  pyTake e.header 1 = "@" ∧ extractBraceComma e.header = e.id ∧
  NlLine e.header ∧ ∀ l ∈ e.body, containsAtIn3 l = false ∧ NlLine l

instance : DecidablePred WfNlEntry := fun e => by
  unfold WfNlEntry
  infer_instance

/-- Every line of a well-formed entry sequence is a readline-style
line. -/
theorem fileLines_nl (es : List BibEntry) (h : ∀ e ∈ es, WfNlEntry e) :
    ∀ l ∈ fileLines es, NlLine l := by
  intro l hl
  rw [fileLines, List.mem_flatMap] at hl
  obtain ⟨e, he, hle⟩ := hl
  obtain ⟨_, _, hnl, hb⟩ := h e he
  rcases List.mem_cons.mp hle with h1 | h1
  · exact h1 ▸ hnl
  · exact (hb l h1).2

/-- C3: replacing the record with the target id by the serialization of
a new well-formed record: the resulting file content is the bytes of the
front entries, the replacement plus one newline, and the bytes of the
back entries (so all bytes outside the replaced entry's byte range are
unchanged); and the parse of the new file equals the parse of the
original file with the target entry's record string replaced by the new
record's string. -/
theorem C3_theorem (front back : List BibEntry) (target enew : BibEntry)
    (repl : String)
    (hwf : ∀ e ∈ front ++ target :: back, WfNlEntry e)
    (hwfn : WfNlEntry enew)
    (hid : enew.id = target.id)
    (hfront : ∀ e ∈ front, e.id ≠ target.id)
    (hrepl : repl = joinStr enew.lines) :
    update_record_by_id target.id repl false
        (fileLines (front ++ target :: back)) =
      joinStr (fileLines front) ++ repl ++ "\n" ++ joinStr (fileLines back)
    ∧ read_next_record_str (splitLinesKeep (update_record_by_id target.id
        repl false (fileLines (front ++ target :: back)))) =
      (read_next_record_str (splitLinesKeep
        (joinStr (fileLines (front ++ target :: back))))).set
        front.length (recStr enew) := by
  have hwff : ∀ e ∈ front, WfNlEntry e :=
    fun e he => hwf e (List.mem_append_left _ he)
  have hwft : WfNlEntry target :=
    hwf target (List.mem_append_right _ (List.mem_cons_self _ _))
  have hwfb : ∀ e ∈ back, WfNlEntry e :=
    fun e he => hwf e
      (List.mem_append_right _ (List.mem_cons_of_mem _ he))
  obtain ⟨hth, hte, htn, htb⟩ := hwft
  obtain ⟨hnh, hne, hnn, hnb⟩ := hwfn
  -- the byte-level conclusion
  have h1 : update_record_by_id target.id repl false
      (fileLines (front ++ target :: back)) =
      joinStr (fileLines front) ++ repl ++ "\n" ++
        joinStr (fileLines back) := by
    rw [update_record_by_id]
    simp only [Bool.false_eq_true, if_false]
    rw [updLoop_entries (repl ++ "\n") front target back "NA"
      (fun e he => by
        obtain ⟨a, b, _, c⟩ := hwff e he
        exact ⟨a, b, fun l hl => (c l hl).1⟩)
      hth hte (fun l hl => (htb l hl).1)
      (fun e he => (hwfb e he).1) hfront]
    simp [String.append_assoc]
  refine ⟨h1, ?_⟩
  -- the written file as a list of lines
  have hlines : joinStr (fileLines front) ++ repl ++ "\n" ++
      joinStr (fileLines back) =
      joinStr (fileLines front ++ (BibEntry.lines enew ++ ["\n"]) ++
        fileLines back) := by
    rw [joinStr_append, joinStr_append, joinStr_append, hrepl]
    simp [String.append_assoc]
  -- the new entry with the extra blank line after it
  have hlines2 : fileLines front ++ (BibEntry.lines enew ++ ["\n"]) ++
      fileLines back =
      fileLines (front ++ (⟨enew.id, enew.header,
        enew.body ++ ["\n"]⟩ : BibEntry) :: back) := by
    simp [fileLines, BibEntry.lines]
  have hnlAll : ∀ l ∈ fileLines front ++ (BibEntry.lines enew ++ ["\n"]) ++
      fileLines back, NlLine l := by
    intro l hl
    rcases List.mem_append.mp hl with hl1 | hl1
    · rcases List.mem_append.mp hl1 with hl2 | hl2
      · exact fileLines_nl front hwff l hl2
      · rcases List.mem_append.mp hl2 with hl3 | hl3
        · rcases List.mem_cons.mp hl3 with h4 | h4
          · exact h4 ▸ hnn
          · exact (hnb l h4).2
        · rw [List.mem_singleton.mp hl3]
          exact ⟨by decide, by decide⟩
    · exact fileLines_nl back hwfb l hl1
  have hreadwf : ∀ e ∈ front ++ (⟨enew.id, enew.header,
      enew.body ++ ["\n"]⟩ : BibEntry) :: back, WfReadEntry e := by
    intro e he
    rcases List.mem_append.mp he with h2 | h2
    · obtain ⟨a, _, _, c⟩ := hwff e h2
      exact ⟨a, fun l hl => (c l hl).1⟩
    · rcases List.mem_cons.mp h2 with h3 | h3
      · subst h3
        refine ⟨hnh, ?_⟩
        intro l hl
        rcases List.mem_append.mp hl with h4 | h4
        · exact (hnb l h4).1
        · rw [List.mem_singleton.mp h4]
          decide
      · obtain ⟨a, _, _, c⟩ := hwfb e h3
        exact ⟨a, fun l hl => (c l hl).1⟩
  have horigwf : ∀ e ∈ front ++ target :: back, WfReadEntry e := by
    intro e he
    obtain ⟨a, _, _, c⟩ := hwf e he
    exact ⟨a, fun l hl => (c l hl).1⟩
  have hrecnew : recStr (⟨enew.id, enew.header,
      enew.body ++ ["\n"]⟩ : BibEntry) = recStr enew := by
    rw [recStr, recStr]
    simp only
    rw [List.filter_append]
    simp [show keepLine "\n" = false from by decide]
  rw [h1, hlines, hlines2,
    splitLinesKeep_joinStr _ (hlines2 ▸ hnlAll),
    splitLinesKeep_joinStr _ (fileLines_nl _ hwf),
    read_fileLines _ (by simp) hreadwf,
    read_fileLines _ (by simp) horigwf]
  rw [List.map_append, List.map_append, List.map_cons, List.map_cons,
    hrecnew, ← List.length_map front recStr, set_at_append_length]

/-- The entry before the replaced one in the C3 witness. -/
def c3front : List BibEntry :=
  [⟨"R1", "@a\x7bR1,\n", ["   title  = \x7bA\x7d,\n", "\x7d\n", "\n"]⟩]

/-- The replaced entry of the C3 witness. -/
def c3target : BibEntry :=
  ⟨"R2", "@a\x7bR2,\n", ["   title  = \x7bB\x7d,\n", "\x7d\n", "\n"]⟩

/-- The entry after the replaced one in the C3 witness. -/
def c3back : List BibEntry :=
  [⟨"R3", "@a\x7bR3,\n", ["\x7d\n"]⟩]

/-- The longer replacement record of the C3 witness. -/
def c3enew : BibEntry :=
  ⟨"R2", "@a\x7bR2,\n", ["   titlelonger  = \x7bBBBB\x7d,\n", "\x7d\n"]⟩

/-- C3 witness: replacing the middle record of a three-record file with
a longer serialization keeps the other records' bytes and replaces only
the middle record string under the reader. -/
theorem C3_witness :
    update_record_by_id c3target.id (joinStr c3enew.lines) false
        (fileLines (c3front ++ c3target :: c3back)) =
      joinStr (fileLines c3front) ++ joinStr c3enew.lines ++ "\n" ++
        joinStr (fileLines c3back)
    ∧ read_next_record_str (splitLinesKeep
        (update_record_by_id c3target.id (joinStr c3enew.lines) false
          (fileLines (c3front ++ c3target :: c3back)))) =
      (read_next_record_str (splitLinesKeep
        (joinStr (fileLines (c3front ++ c3target :: c3back))))).set
        c3front.length (recStr c3enew) :=
  C3_theorem c3front c3back c3target c3enew (joinStr c3enew.lines)
    (by decide) (by decide) rfl (by decide) rfl

/-! ## Claim C5: the record codec

The serializer is Dataset.parse_bibtex_str (src/colrev/dataset.py lines
376-456); the stringify step of colrev.record.Record.get_data and the
surface text reader (pybtex) are not part of the provided source tree
and are modelled from the spec (sections 4.1 and 6); the loader
transformations are Dataset.parse_records_dict (lines 251-303) and
Dataset.load_field_dict (lines 191-249), embedded faithfully.  The
modelled surface reader does not decompose person names; author fields
round-trip as plain strings. -/

/-- A field value of a record dictionary: a plain string, a list field,
a provenance map (ordered (key, source, note) entries), a CURATED
provenance, or the status enum. -/
inductive FieldVal where
  | str (s : String)
  | list (xs : List String)
  | prov (xs : List (String × String × String))
  | curated (source : String)
  | state (st : RecordState)
deriving DecidableEq, Repr

/-- A record dictionary: ID, ENTRYTYPE, and the remaining fields in
insertion order. -/
structure BibRecord where
  id : String
  entrytype : String
  fields : List (String × FieldVal)
deriving DecidableEq, Repr

/-- Modelled from the spec: one provenance entry serializes as
key:source;note. -/
def provItemStr (p : String × String × String) : String :=
  p.1 ++ ":" ++ p.2.1 ++ ";" ++ p.2.2

/-- Modelled from the spec: the stringify step of Record.get_data.
List fields are joined with a semicolon and space; provenance maps
serialize as key1:source1;note1; key2:source2;note2; and a CURATED
provenance as CURATED:source;; (spec section 4.1); the status is its
name. -/
def stringifyVal : FieldVal → String
  | .str s => s
  | .list xs => joinSep "; " xs
  | .prov xs => joinSep "; " (xs.map provItemStr) ++ ";"
  | .curated source => "CURATED:" ++ source ++ ";;"
  | .state st => st.str

/-- The fixed field-ordering prefix of Dataset.parse_bibtex_str. -/
def field_order : List String :=
  ["colrev_origin", "colrev_status", "colrev_masterdata_provenance",
   "colrev_data_provenance", "colrev_id", "colrev_pdf_id",
   "screening_criteria", "file", "prescreen_exclusion", "doi",
   "grobid-version", "dblp_key", "sem_scholar_id", "wos_accession_number",
   "author", "booktitle", "journal", "title", "year", "volume", "number",
   "pages", "editor"]

/-- The field text of format_field without its leading comma-newline:
three spaces, the field, one space, the width padding, equals-sign,
and the braced value. -/
def fieldBody (field value : String) : String :=
  "   " ++ field ++ " " ++ spaces (28 - field.length) ++ " = \x7b" ++ value ++
    "\x7d"

/-- format_field in Dataset.parse_bibtex_str. -/
def format_field (field value : String) : String :=
  ",\n" ++ fieldBody field value

/-- The `en`-to-`eng` language conversion applied by parse_bibtex_str
before serializing. -/
def fixLanguage (fields : List (String × FieldVal)) :
    List (String × FieldVal) :=
  fields.map (fun p =>
    if p.1 = "language" ∧ p.2 = .str "en" then (p.1, .str "eng") else p)

/-- The stringified (key, value) pairs of a record's fields. -/
def stringifiedFields (r : BibRecord) : List (String × String) :=
  (fixLanguage r.fields).map (fun p => (p.1, stringifyVal p.2))

/-- The fields a record serializes, in order: the fixed-order fields
that are present and nonempty, then the remaining fields in insertion
order (empty or not). -/
def emittedFields (r : BibRecord) : List (String × String) :=
  (field_order.filterMap (fun k =>
    (stringifiedFields r).find? (fun p => p.1 == k))).filter
      (fun p => p.2 ≠ "")
  ++ (stringifiedFields r).filter (fun p => ¬ field_order.contains p.1)

/-- The serialization of one record by Dataset.parse_bibtex_str. -/
def entryStr (r : BibRecord) : String :=
  "@" ++ r.entrytype ++ "\x7b" ++ r.id ++
    joinStr ((emittedFields r).map (fun p => format_field p.1 p.2)) ++
    ",\n\x7d\n"

/-- Dataset.parse_bibtex_str: the records serialized in order, separated
by one blank line. -/
def parse_bibtex_str (recs : List BibRecord) : String :=
  joinSep "\n" (recs.map entryStr)

/-- Scan up to the first occurrence of a character: the part before it
and the part after it. -/
def scanTo (c : Char) : List Char → Option (List Char × List Char)
  | [] => none
  | x :: xs =>
    if x = c then some ([], xs)
    else (scanTo c xs).map (fun p => (x :: p.1, p.2))

/-- Modelled from the spec (section 6): the entry-start line
@entrytype{id, of an entry. -/
def parseHeaderLine (l : String) : Option (String × String) :=
  match l.data with
  | c :: rest =>
    if c = '@' then
      (scanTo '{' rest).bind fun p =>
      (scanTo ',' p.2).bind fun q =>
      if q.2 = ['\n'] then some (String.mk p.1, String.mk q.1) else none
    else none
  | [] => none

/-- Modelled from the spec (section 6): a field line
`   field  = {value},` with its fixed left padding. -/
def parseFieldLine (l : String) : Option (String × String) :=
  match l.data with
  | c1 :: c2 :: c3 :: rest =>
    if c1 = ' ' ∧ c2 = ' ' ∧ c3 = ' ' then
      (scanTo ' ' rest).bind fun p =>
      match p.2.dropWhile (fun c => c = ' ') with
      | d1 :: d2 :: d3 :: rest3 =>
        if d1 = '=' ∧ d2 = ' ' ∧ d3 = '{' then
          (scanTo '}' rest3).bind fun q =>
          if q.2 = [',', '\n'] then some (String.mk p.1, String.mk q.1)
          else none
        else none
      | _ => none
    else none
  | _ => none

/-- Modelled from the spec (section 6): group the lines of the records
file into entries, each starting at an @ line; comment lines and blank
lines are skipped. -/
def groupEntriesAux :
    Option (String × List String) → List String →
    List (String × List String)
  | cur, [] =>
    match cur with
    | none => []
    | some e => [e]
  | cur, l :: rest =>
    if pyTake l 1 = "@" then
      match cur with
      | none => groupEntriesAux (some (l, [])) rest
      | some e => e :: groupEntriesAux (some (l, [])) rest
    else if pyTake l 1 = "%" ∨ l = "\n" then groupEntriesAux cur rest
    else
      match cur with
      | none => groupEntriesAux none rest
      | some e => groupEntriesAux (some (e.1, e.2 ++ [l])) rest

/-- The entries of the records text as (entry-start line, body lines). -/
def groupEntries (lines : List String) : List (String × List String) :=
  groupEntriesAux none lines

/-- Modelled from the spec: parse one grouped entry; the body must close
with a brace line, and every other body line is a field line. -/
def parseEntryLines (p : String × List String) :
    Option (String × String × List (String × String)) :=
  (parseHeaderLine p.1).bind fun h =>
  if p.2.getLast? = some "\x7d\n" then
    (p.2.dropLast.mapM parseFieldLine).map fun fs => (h.1, h.2, fs)
  else none

/-- Modelled from the spec: the surface reader standing in for pybtex,
reading exactly the serialized format of section 6 into
(entrytype, id, raw fields) triples. -/
def parseBibSurface (s : String) :
    Option (List (String × String × List (String × String))) :=
  (groupEntries (splitLinesKeep s)).mapM parseEntryLines

/-- RecordState[v] in Python: lookup of a state by its name. -/
def stateOfName (s : String) : Option RecordState :=
  RecordState.all.find? (fun st => st.str == s)

/-- Python str.upper, character-wise. -/
def pyUpper (s : String) : String :=
  String.mk (s.data.map Char.toUpper)

/-- Modelled from the spec: colrev.record.Record.list_fields_keys (the
list-valued fields of section 3). -/
def list_fields_keys : List String :=
  ["colrev_origin", "colrev_id"]

/-- Modelled from the spec: colrev.record.Record.dict_fields_keys (the
two provenance fields). -/
def dict_fields_keys : List String :=
  ["colrev_masterdata_provenance", "colrev_data_provenance"]

/-- One pass of the item loop of Dataset.load_field_dict: re-append the
semicolon the split removed, cut at the last interior semicolon into
key:source and note, and keep the item when its key part has a colon. -/
def provItemParse (item0 : String) : Option (String × String × String) :=
  if item0 = "" then none
  else
    let item := item0 ++ ";"
    let cut := pyRFind (pySlice item 0 (-1)) ';'
    let key_source := pySlice item 0 cut
    if key_source.data.contains ':' then
      match splitFirst ":" key_source with
      | some ks => some (ks.1, ks.2, pySlice item (cut + 1) (-1))
      | none => none
    else none

/-- The item loop shared by both branches of Dataset.load_field_dict:
split the value on semicolon-space and parse each piece. -/
def parseProvItems (value : String) : List (String × String × String) :=
  (pySplitSemiSpace (value ++ " ")).filterMap provItemParse

/-- Dataset.load_field_dict (src/colrev/dataset.py lines 191-249): the
CURATED form (with its legacy padding fixes) is recognized only for the
masterdata provenance; otherwise the value parses into ordered
provenance entries. -/
def load_field_dict (value field : String) : FieldVal :=
  if field = "colrev_masterdata_provenance" then
    if pyTake value 7 = "CURATED" then
      let value := if value.data.count ';' = 0 then value ++ ";;" else value
      let value := if value.data.count ';' = 1 then value ++ ";" else value
      let source :=
        if value.data.contains ':' then
          pySlice value (pyFind value ':' + 1)
            (pyRFind (pySlice value 0 (-1)) ';')
        else ""
      .curated source
    else .prov (if value = "" then [] else parseProvItems value)
  else .prov (if value = "" then [] else parseProvItems value)

/-- The per-field transformation of Dataset.parse_records_dict: cast the
status to the enum, upper-case DOIs, split list fields, load provenance
dicts, and keep everything else as a plain string. -/
def transformField (k v : String) : Option FieldVal :=
  if k = "colrev_status" then (stateOfName v).map .state
  else if k = "doi" then some (.str (pyUpper v))
  else if list_fields_keys.contains k then
    some (.list ((pySplitSemiSpace (v ++ " ")).filterMap
      (fun el => if el = "" then none else some (pyRstrip el))))
  else if dict_fields_keys.contains k then some (load_field_dict v k)
  else some (.str v)

/-- Dataset.parse_records_dict over the surface reader's raw entries. -/
def parse_records_dict
    (raw : List (String × String × List (String × String))) :
    Option (List BibRecord) :=
  raw.mapM (fun e =>
    (e.2.2.mapM (fun p => (transformField p.1 p.2).map ((p.1, ·)))).map
      (fun fields => BibRecord.mk e.2.1 e.1 fields))

/-- Dataset.load_records_dict: the surface reader followed by the
record transformations. -/
def load_records_dict (s : String) : Option (List BibRecord) :=
  (parseBibSurface s).bind parse_records_dict

/-- Whether a field value is the status enum. -/
def isStateV : FieldVal → Bool
  | .state _ => true
  | _ => false

/-- Whether a field value is a list. -/
def isListV : FieldVal → Bool
  | .list _ => true
  | _ => false

/-- Whether a field value is a provenance map or CURATED entry. -/
def isProvLike : FieldVal → Bool
  | .prov _ => true
  | .curated _ => true
  | _ => false

/-- The per-shape constraints of a well-behaved value under its key. -/
def WfVal (k : String) : FieldVal → Prop
  | .str s => (k = "doi" → pyUpper s = s) ∧ (k = "language" → s ≠ "en") ∧
      k ∉ list_fields_keys ∧ k ∉ dict_fields_keys ∧ k ≠ "colrev_status"
  | .state _ => k = "colrev_status"
  | .list xs => k ∈ list_fields_keys ∧ xs ≠ [] ∧
      ∀ el ∈ xs, el ≠ "" ∧ ';' ∉ el.data ∧ pyRstrip el = el
  | .prov xs => k ∈ dict_fields_keys ∧ xs ≠ [] ∧
      pyTake (stringifyVal (.prov xs)) 7 ≠ "CURATED" ∧
      ∀ it ∈ xs, it.1 ≠ "" ∧ ':' ∉ it.1.data ∧ ';' ∉ it.1.data ∧
        ';' ∉ it.2.1.data ∧ ';' ∉ it.2.2.data ∧
        it.2.2.data.head? ≠ some ' '
  | .curated src => k = "colrev_masterdata_provenance" ∧ ';' ∉ src.data

instance (k : String) : DecidablePred (WfVal k) := fun v => by
  cases v <;> (unfold WfVal; infer_instance)

/-- A well-behaved field: the key is a plain identifier-like string
distinct from the dictionary meta keys, the serialized value fits on a
field line, and the shape of the value matches its key (status under
colrev_status, lists under the list fields, provenance under the
provenance fields, no legacy-format quirks inside provenance items and
list elements, an upper-case DOI, no two-letter en language). -/
def WfField (k : String) (v : FieldVal) : Prop :=
  k ≠ "" ∧ k ≠ "ID" ∧ k ≠ "ENTRYTYPE" ∧
  ' ' ∉ k.data ∧ '\n' ∉ k.data ∧ '{' ∉ k.data ∧ '}' ∉ k.data ∧
  '}' ∉ (stringifyVal v).data ∧ '\n' ∉ (stringifyVal v).data ∧
  (k = "colrev_status" → isStateV v) ∧
  (k ∈ list_fields_keys → isListV v) ∧
  (k ∈ dict_fields_keys → isProvLike v) ∧
  WfVal k v

instance (k : String) (v : FieldVal) : Decidable (WfField k v) := by
  unfold WfField
  infer_instance

/-- A well-behaved record: serializable id and entry type, distinct
field keys, well-behaved fields, and no empty-valued fixed-order field
(the serializer drops those). -/
def WfRecord (r : BibRecord) : Prop :=
  r.entrytype ≠ "" ∧ '{' ∉ r.entrytype.data ∧ '\n' ∉ r.entrytype.data ∧
  ',' ∉ r.id.data ∧ '\n' ∉ r.id.data ∧
  (r.fields.map Prod.fst).Nodup ∧
  (∀ p ∈ r.fields, WfField p.1 p.2) ∧
  (∀ p ∈ r.fields, p.1 ∈ field_order → stringifyVal p.2 ≠ "")

instance : DecidablePred WfRecord := fun r => by
  unfold WfRecord
  infer_instance

/-- A well-behaved record map: distinct record ids, each record
well-behaved. -/
def WfRecords (m : List BibRecord) : Prop :=
  (m.map BibRecord.id).Nodup ∧ ∀ r ∈ m, WfRecord r

/-- Python dictionary equality of field maps: the same lookup result
for every key (order-insensitive). -/
def fieldsLookupEq (f1 f2 : List (String × FieldVal)) : Prop :=
  ∀ k : String, f1.find? (fun p => p.1 == k) = f2.find? (fun p => p.1 == k)

/-- Python equality of two records: same id, same entry type, same
field dictionary. -/
def recordEq (r1 r2 : BibRecord) : Prop :=
  r1.id = r2.id ∧ r1.entrytype = r2.entrytype ∧
  fieldsLookupEq r1.fields r2.fields

/-- Python equality of two record maps, record by record. -/
def recordsEq : List BibRecord → List BibRecord → Prop :=
  List.Forall₂ recordEq

/-- The record of the C5 counterexample: a fixed-order field (doi) with
an empty value. -/
def c5bad : BibRecord :=
  ⟨"R1", "article", [("doi", FieldVal.str "")]⟩

/-- C5 counterexample: serializing a record map whose doi is the empty
string drops the doi field entirely (parse_bibtex_str line 442 skips
empty fixed-order fields), so parsing the serialization yields a record
without the doi field and the round trip fails although the record has
no legacy-format quirk. -/
theorem C5_counterexample :
    load_records_dict (parse_bibtex_str [c5bad]) =
      some [⟨"R1", "article", []⟩]
    ∧ ¬ recordsEq [(⟨"R1", "article", []⟩ : BibRecord)] [c5bad] := by
  refine ⟨by rfl, ?_⟩
  intro h
  rcases h with _ | ⟨⟨_, _, hf⟩, _⟩
  have h2 := hf "doi"
  simp [c5bad] at h2

/-! ### Scanning and splitting lemmas for the codec round trip -/

/-- scanTo splits at the first occurrence of the character. -/
theorem scanTo_append (c : Char) :
    ∀ (a b : List Char), c ∉ a → scanTo c (a ++ c :: b) = some (a, b) := by
  intro a
  induction a with
  | nil => intro b _; simp [scanTo]
  | cons x t ih =>
    intro b hni
    have hx : ¬ x = c := fun h => hni (h ▸ List.mem_cons_self _ _)
    rw [List.cons_append, scanTo, if_neg hx,
      ih b (fun hm => hni (List.mem_cons_of_mem _ hm))]
    rfl

/-- Dropping the spaces of the field-line padding. -/
theorem dropWhile_spaces :
    ∀ (n : Nat) (ys : List Char),
      (List.replicate n ' ' ++ ys).dropWhile (fun c => c = ' ') =
        ys.dropWhile (fun c => c = ' ') := by
  intro n
  induction n with
  | zero => intro ys; rfl
  | succ n ih =>
    intro ys
    rw [List.replicate_succ, List.cons_append, List.dropWhile_cons_of_pos
      (by simp)]
    exact ih ys

/-- pyFindAux finds the first occurrence. -/
theorem pyFindAux_append (c : Char) :
    ∀ (a : List Char) (b : List Char) (i : Nat), c ∉ a →
      pyFindAux c (a ++ c :: b) i = (i : Int) + a.length := by
  intro a
  induction a with
  | nil => intro b i _; simp [pyFindAux]
  | cons x t ih =>
    intro b i hni
    have hx : ¬ x = c := fun h => hni (h ▸ List.mem_cons_self _ _)
    rw [List.cons_append, pyFindAux, if_neg hx,
      ih b (i + 1) (fun hm => hni (List.mem_cons_of_mem _ hm)),
      List.length_cons]
    push_cast
    omega

/-- pyRFindAux keeps the accumulator on a character-free suffix. -/
theorem pyRFindAux_not_mem (c : Char) :
    ∀ (l : List Char) (i : Nat) (acc : Int), c ∉ l →
      pyRFindAux c l i acc = acc := by
  intro l
  induction l with
  | nil => intro i acc _; rfl
  | cons x t ih =>
    intro i acc hni
    have hx : ¬ x = c := fun h => hni (h ▸ List.mem_cons_self _ _)
    rw [pyRFindAux, if_neg hx]
    exact ih (i + 1) acc (fun hm => hni (List.mem_cons_of_mem _ hm))

/-- pyRFindAux finds the last occurrence when the suffix after it is
free of the character. -/
theorem pyRFindAux_append (c : Char) :
    ∀ (a b : List Char) (i : Nat) (acc : Int), c ∉ b →
      pyRFindAux c (a ++ c :: b) i acc = (i : Int) + a.length := by
  intro a
  induction a with
  | nil =>
    intro b i acc hni
    rw [List.nil_append, pyRFindAux, if_pos rfl,
      pyRFindAux_not_mem c b (i + 1) i hni]
    simp
  | cons x t ih =>
    intro b i acc hni
    rw [List.cons_append, pyRFindAux, ih b (i + 1) _ hni,
      List.length_cons]
    push_cast
    omega

/-- No forbidden semicolon-space pair occurs among adjacent characters. -/
def noSemiSpace : List Char → Prop
  | [] => True
  | [_] => True
  | x :: y :: xs => ¬(x = ';' ∧ y = ' ') ∧ noSemiSpace (y :: xs)

/-- The semicolon-space splitter splits exactly at a separator whose
left part has no interior semicolon-space pair. -/
theorem splitSemiSpaceAux_sep :
    ∀ (a rest : List Char), noSemiSpace a →
      splitSemiSpaceAux (a ++ ';' :: ' ' :: rest) =
        a :: splitSemiSpaceAux rest := by
  intro a
  induction a with
  | nil => intro rest _; simp [splitSemiSpaceAux]
  | cons x t ih =>
    intro rest hns
    cases t with
    | nil =>
      show splitSemiSpaceAux (x :: ';' :: ' ' :: rest) = _
      rw [splitSemiSpaceAux]
      rw [if_neg (fun h => absurd h.2 (by decide))]
      rw [show splitSemiSpaceAux (';' :: ' ' :: rest) =
        [] :: splitSemiSpaceAux rest from by
          rw [splitSemiSpaceAux, if_pos ⟨rfl, rfl⟩]]
    | cons y t2 =>
      show splitSemiSpaceAux (x :: ((y :: t2) ++ ';' :: ' ' :: rest)) = _
      rcases hns with ⟨hx, hns2⟩
      rw [show (y :: t2) ++ ';' :: ' ' :: rest =
        y :: (t2 ++ ';' :: ' ' :: rest) from rfl]
      rw [splitSemiSpaceAux, if_neg hx]
      rw [show y :: (t2 ++ ';' :: ' ' :: rest) =
        (y :: t2) ++ ';' :: ' ' :: rest from rfl]
      rw [ih rest hns2]

/-- A character list with no semicolon-space pair does not split. -/
theorem splitSemiSpaceAux_whole :
    ∀ (a : List Char), noSemiSpace a → splitSemiSpaceAux a = [a] := by
  intro a
  induction a with
  | nil => intro _; rfl
  | cons x t ih =>
    intro hns
    cases t with
    | nil => rfl
    | cons y t2 =>
      rcases hns with ⟨hx, hns2⟩
      rw [splitSemiSpaceAux, if_neg hx, ih hns2]

/-- splitFirst on a single-character separator splits at its first
occurrence. -/
theorem splitFirstAux_colon :
    ∀ (a b : List Char), ':' ∉ a →
      splitFirstAux [':'] (a ++ ':' :: b) = some (a, b) := by
  intro a
  induction a with
  | nil => intro b _; simp [splitFirstAux, List.isPrefixOf]
  | cons x t ih =>
    intro b hni
    have hx : ¬ x = ':' := fun h => hni (h ▸ List.mem_cons_self _ _)
    rw [List.cons_append, splitFirstAux,
      if_neg (by
        simp only [List.isPrefixOf]
        intro hcon
        simp only [Bool.and_eq_true, beq_iff_eq] at hcon
        exact hx hcon.1.symm),
      ih b (fun hm => hni (List.mem_cons_of_mem _ hm))]
    rfl

/-- Right-stripping absorbs an appended space. -/
theorem pyRstrip_append_space (s : String) :
    pyRstrip (s ++ " ") = pyRstrip s := by
  unfold pyRstrip
  rw [str_data_append]
  congr 1
  rw [show (" " : String).data = [' '] from rfl, List.reverse_append]
  simp

/-- A string is empty iff its character list is. -/
theorem str_eq_empty_iff (s : String) : s = "" ↔ s.data = [] := by
  constructor
  · intro h
    rw [h]
  · intro h
    rw [← mk_data s, h]

/-- A Python slice with natural bounds inside the string. -/
theorem pySlice_of_nat (s : String) (a b : Nat) (ha : a ≤ s.length)
    (hb : b ≤ s.length) :
    pySlice s (a : Int) (b : Int) = String.mk ((s.data.take b).drop a) := by
  have hB : (if (b : Int) < 0 then (max ((s.length : Int) + (b : Int)) 0).toNat
      else (min (b : Int) (s.length : Int)).toNat) = b := by
    rw [if_neg (by omega)]
    omega
  have hA : (if (a : Int) < 0 then (max ((s.length : Int) + (a : Int)) 0).toNat
      else (min (a : Int) (s.length : Int)).toNat) = a := by
    rw [if_neg (by omega)]
    omega
  simp only [pySlice]
  rw [hA, hB]

/-- The Python slice s[a:-1] with a natural start. -/
theorem pySlice_neg_one (s : String) (a : Nat) (ha : a ≤ s.length) :
    pySlice s (a : Int) (-1) =
      String.mk ((s.data.take (s.length - 1)).drop a) := by
  have hB : (if (-1 : Int) < 0 then (max ((s.length : Int) + (-1 : Int)) 0).toNat
      else (min (-1 : Int) (s.length : Int)).toNat) = s.length - 1 := by
    rw [if_pos (by omega)]
    omega
  have hA : (if (a : Int) < 0 then (max ((s.length : Int) + (a : Int)) 0).toNat
      else (min (a : Int) (s.length : Int)).toNat) = a := by
    rw [if_neg (by omega)]
    omega
  simp only [pySlice]
  rw [hA, hB]

/-- Lists without semicolon contain no semicolon-space pair. -/
theorem noSemiSpace_of_not_mem :
    ∀ (l : List Char), ';' ∉ l → noSemiSpace l := by
  intro l
  induction l with
  | nil => intro _; trivial
  | cons x t ih =>
    intro h
    cases t with
    | nil => trivial
    | cons y t2 =>
      exact ⟨fun hc => h (hc.1 ▸ List.mem_cons_self _ _),
        ih (fun hm => h (List.mem_cons_of_mem _ hm))⟩

/-- Concatenation preserves the absence of semicolon-space pairs when
the junction is not such a pair. -/
theorem noSemiSpace_append :
    ∀ (a b : List Char), noSemiSpace a → noSemiSpace b →
      (a.getLast? = some ';' → b.head? ≠ some ' ') →
      noSemiSpace (a ++ b) := by
  intro a
  induction a with
  | nil => intro b _ hb _; exact hb
  | cons x t ih =>
    intro b ha hb hj
    cases t with
    | nil =>
      cases b with
      | nil => trivial
      | cons y b2 =>
        refine ⟨fun hc => ?_, hb⟩
        exact hj (by simp [hc.1]) (by simp [hc.2])
    | cons z t2 =>
      obtain ⟨hp, ht⟩ := ha
      refine ⟨by simpa using hp, ?_⟩
      exact ih b ht hb (by simpa using hj)

/-- Taking the length of the left part of a concatenation. -/
theorem take_len_append (x y : List Char) : (x ++ y).take x.length = x := by
  simp

/-- Dropping the length of the left part of a concatenation. -/
theorem drop_len_append (x y : List Char) : (x ++ y).drop x.length = y := by
  simp

/-- The last element of a list is a member. -/
theorem mem_of_getLast_some :
    ∀ (l : List Char) (c : Char), l.getLast? = some c → c ∈ l := by
  intro l
  induction l with
  | nil => intro c h; simp at h
  | cons x t ih =>
    intro c h
    cases t with
    | nil =>
      simp [List.getLast?] at h
      simp [h]
    | cons y t2 =>
      rw [List.getLast?_cons_cons] at h
      exact List.mem_cons_of_mem _ (ih c h)

/-- Looking a state name back up yields the state. -/
theorem stateOfName_str (st : RecordState) : stateOfName st.str = some st := by
  cases st <;> rfl

/-- A serialized provenance item has no semicolon-space pair when its
parts are semicolon-free and the note does not start with a space. -/
theorem noSemiSpace_provItemStr (p : String × String × String)
    (hks : ';' ∉ p.1.data) (hss : ';' ∉ p.2.1.data)
    (hns : ';' ∉ p.2.2.data) (hh : p.2.2.data.head? ≠ some ' ') :
    noSemiSpace (provItemStr p).data := by
  have hd : (provItemStr p).data =
      p.1.data ++ ([':'] ++ (p.2.1.data ++ ([';'] ++ p.2.2.data))) := by
    simp [provItemStr, str_data_append,
      show (":" : String).data = [':'] from rfl,
      show (";" : String).data = [';'] from rfl]
  rw [hd]
  apply noSemiSpace_append _ _ (noSemiSpace_of_not_mem _ hks)
  · apply noSemiSpace_append
    · trivial
    · apply noSemiSpace_append _ _ (noSemiSpace_of_not_mem _ hss)
      · apply noSemiSpace_append
        · trivial
        · exact noSemiSpace_of_not_mem _ hns
        · intro _
          exact hh
      · intro hlast
        exact absurd (mem_of_getLast_some _ _ hlast) hss
    · intro hlast
      simp at hlast
  · intro hlast
    have := mem_of_getLast_some _ _ hlast
    exact absurd this hks

/-- Splitting and right-stripping invert the semicolon-space join of a
list field whose elements are semicolon-free and right-stripped. -/
theorem listField_round :
    ∀ (xs : List String), xs ≠ [] →
      (∀ el ∈ xs, el ≠ "" ∧ ';' ∉ el.data ∧ pyRstrip el = el) →
      (pySplitSemiSpace (joinSep "; " xs ++ " ")).filterMap
        (fun el => if el = "" then none else some (pyRstrip el)) = xs := by
  intro xs
  induction xs with
  | nil => intro h _; exact absurd rfl h
  | cons a t ih =>
    intro _ hwf
    obtain ⟨ha0, hans, hars⟩ := hwf a (List.mem_cons_self _ _)
    cases t with
    | nil =>
      have hd : (joinSep "; " [a] ++ " ").data = a.data ++ [' '] := by
        simp [joinSep, str_data_append, show (" " : String).data = [' '] from rfl]
      have hno : ';' ∉ a.data ++ [' '] := by
        intro hm
        rcases List.mem_append.mp hm with h | h
        · exact hans h
        · simp at h
      have hsplit : pySplitSemiSpace (joinSep "; " [a] ++ " ") = [a ++ " "] := by
        unfold pySplitSemiSpace
        rw [hd, splitSemiSpaceAux_whole _ (noSemiSpace_of_not_mem _ hno)]
        simp only [List.map_cons, List.map_nil]
        rw [show a.data ++ [' '] = (a ++ " ").data from by
          simp [str_data_append, show (" " : String).data = [' '] from rfl],
          mk_data]
      rw [hsplit]
      have hne : a ++ " " ≠ "" := fun h => by
        have h2 := (str_eq_empty_iff _).mp h
        rw [str_data_append] at h2
        simp at h2
      simp only [List.filterMap_cons, List.filterMap_nil, if_neg hne]
      rw [pyRstrip_append_space, hars]
    | cons b t2 =>
      have hd : (joinSep "; " (a :: b :: t2) ++ " ").data =
          a.data ++ ';' :: ' ' :: (joinSep "; " (b :: t2) ++ " ").data := by
        simp [joinSep, str_data_append,
          show ("; " : String).data = [';', ' '] from rfl]
      have hsplit : pySplitSemiSpace (joinSep "; " (a :: b :: t2) ++ " ") =
          a :: pySplitSemiSpace (joinSep "; " (b :: t2) ++ " ") := by
        unfold pySplitSemiSpace
        rw [hd, splitSemiSpaceAux_sep _ _ (noSemiSpace_of_not_mem _ hans)]
        simp only [List.map_cons, mk_data]
      rw [hsplit]
      simp only [List.filterMap_cons, if_neg ha0]
      rw [hars, ih (by simp) (fun el hm => hwf el (List.mem_cons_of_mem _ hm))]

/-- The load_field_dict item loop inverts the serialization of one
provenance item whose parts are free of colons and semicolons. -/
theorem provItemParse_str (k src note : String)
    (hk : k ≠ "") (hkc : ':' ∉ k.data) (hns : ';' ∉ note.data) :
    provItemParse (provItemStr (k, src, note)) = some (k, src, note) := by
  have h0 : provItemStr (k, src, note) ≠ "" := fun h => by
    have h2 := (str_eq_empty_iff _).mp h
    simp [provItemStr, str_data_append,
      show (":" : String).data = [':'] from rfl,
      show (";" : String).data = [';'] from rfl] at h2
  have hA : (provItemStr (k, src, note) ++ ";").data =
      (k.data ++ ':' :: src.data) ++ ';' :: (note.data ++ [';']) := by
    simp [provItemStr, str_data_append,
      show (":" : String).data = [':'] from rfl,
      show (";" : String).data = [';'] from rfl]
  have hA2 : (provItemStr (k, src, note) ++ ";").data =
      ((k.data ++ ':' :: src.data) ++ ';' :: note.data) ++ [';'] := by
    rw [hA]
    simp
  have hlen : (provItemStr (k, src, note) ++ ";").length =
      ((k.data ++ ':' :: src.data) ++ ';' :: note.data).length + 1 := by
    show (provItemStr (k, src, note) ++ ";").data.length = _
    rw [hA2]
    simp only [List.length_append, List.length_cons, List.length_nil]
    try omega
  have htake : (provItemStr (k, src, note) ++ ";").data.take
      ((provItemStr (k, src, note) ++ ";").length - 1) =
      (k.data ++ ':' :: src.data) ++ ';' :: note.data := by
    rw [hA2, hlen, Nat.add_sub_cancel, take_len_append]
  have hslice1 : pySlice (provItemStr (k, src, note) ++ ";") 0 (-1) =
      String.mk ((k.data ++ ':' :: src.data) ++ ';' :: note.data) := by
    rw [show (0 : Int) = ((0 : Nat) : Int) from rfl,
      pySlice_neg_one _ 0 (Nat.zero_le _), List.drop_zero, htake]
  have hcut : pyRFind
      (String.mk ((k.data ++ ':' :: src.data) ++ ';' :: note.data)) ';' =
      (((k.data ++ ':' :: src.data).length : Nat) : Int) := by
    show pyRFindAux ';' ((k.data ++ ':' :: src.data) ++ ';' :: note.data)
      0 (-1) = _
    rw [pyRFindAux_append ';' _ note.data 0 (-1) hns]
    simp
  have hlenK : (k.data ++ ':' :: src.data).length ≤
      (provItemStr (k, src, note) ++ ";").length := by
    show _ ≤ (provItemStr (k, src, note) ++ ";").data.length
    rw [hA]
    simp only [List.length_append, List.length_cons, List.length_nil]
    try omega
  have hslice2 : pySlice (provItemStr (k, src, note) ++ ";") 0
      (((k.data ++ ':' :: src.data).length : Nat) : Int) =
      String.mk (k.data ++ ':' :: src.data) := by
    rw [show (0 : Int) = ((0 : Nat) : Int) from rfl,
      pySlice_of_nat _ 0 _ (Nat.zero_le _) hlenK, List.drop_zero]
    congr 1
    rw [hA, take_len_append]
  have hlenK1 : (k.data ++ ':' :: src.data).length + 1 ≤
      (provItemStr (k, src, note) ++ ";").length := by
    show _ ≤ (provItemStr (k, src, note) ++ ";").data.length
    rw [hA]
    simp only [List.length_append, List.length_cons, List.length_nil]
    try omega
  have hslice3 : pySlice (provItemStr (k, src, note) ++ ";")
      ((((k.data ++ ':' :: src.data).length : Nat) : Int) + 1) (-1) =
      note := by
    rw [show (((k.data ++ ':' :: src.data).length : Nat) : Int) + 1 =
      (((k.data ++ ':' :: src.data).length + 1 : Nat) : Int) from by
        push_cast; ring]
    rw [pySlice_neg_one _ _ hlenK1, htake,
      show (k.data ++ ':' :: src.data) ++ ';' :: note.data =
        ((k.data ++ ':' :: src.data) ++ [';']) ++ note.data from by simp,
      show (k.data ++ ':' :: src.data).length + 1 =
        ((k.data ++ ':' :: src.data) ++ [';']).length from by simp; omega,
      drop_len_append, mk_data]
  have hcon : (String.mk (k.data ++ ':' :: src.data)).data.contains ':' =
      true := by
    show (k.data ++ ':' :: src.data).contains ':' = true
    exact List.elem_iff.mpr (List.mem_append_right _
      (List.mem_cons_self _ _))
  have hsplit : splitFirst ":" (String.mk (k.data ++ ':' :: src.data)) =
      some (k, src) := by
    show (splitFirstAux (":" : String).data (k.data ++ ':' :: src.data)).map
      _ = _
    rw [show (":" : String).data = [':'] from rfl,
      splitFirstAux_colon k.data src.data hkc]
    simp [mk_data]
  simp only [provItemParse]
  rw [if_neg h0, hslice1, hcut, hslice2, if_pos hcon, hsplit, hslice3]

/-- The item loop inverts the serialization of a provenance map whose
items are free of legacy-format quirks. -/
theorem parseProvItems_round :
    ∀ (xs : List (String × String × String)), xs ≠ [] →
      (∀ it ∈ xs, it.1 ≠ "" ∧ ':' ∉ it.1.data ∧ ';' ∉ it.1.data ∧
        ';' ∉ it.2.1.data ∧ ';' ∉ it.2.2.data ∧
        it.2.2.data.head? ≠ some ' ') →
      parseProvItems (stringifyVal (FieldVal.prov xs)) = xs := by
  intro xs
  induction xs with
  | nil => intro h _; exact absurd rfl h
  | cons p t ih =>
    intro _ hwf
    obtain ⟨hp1, hp2, hp3, hp4, hp5, hp6⟩ := hwf p (List.mem_cons_self _ _)
    have hno : noSemiSpace (provItemStr p).data :=
      noSemiSpace_provItemStr p hp3 hp4 hp5 hp6
    have hparse : provItemParse (provItemStr p) = some p := by
      obtain ⟨k, src, note⟩ := p
      exact provItemParse_str k src note hp1 hp2 hp5
    cases t with
    | nil =>
      have hd : (stringifyVal (FieldVal.prov [p]) ++ " ").data =
          (provItemStr p).data ++ ';' :: ' ' :: ([] : List Char) := by
        simp [stringifyVal, joinSep, str_data_append,
          show (";" : String).data = [';'] from rfl,
          show (" " : String).data = [' '] from rfl]
      unfold parseProvItems pySplitSemiSpace
      rw [hd, splitSemiSpaceAux_sep _ _ hno]
      simp only [List.map_cons, mk_data]
      rw [show splitSemiSpaceAux ([] : List Char) = [[]] from rfl]
      simp only [List.map_cons, List.map_nil, List.filterMap_cons,
        List.filterMap_nil, hparse]
      rfl
    | cons q t2 =>
      have hd : (stringifyVal (FieldVal.prov (p :: q :: t2)) ++ " ").data =
          (provItemStr p).data ++ ';' :: ' ' ::
            (stringifyVal (FieldVal.prov (q :: t2)) ++ " ").data := by
        simp [stringifyVal, joinSep, str_data_append,
          show ("; " : String).data = [';', ' '] from rfl,
          show (";" : String).data = [';'] from rfl,
          show (" " : String).data = [' '] from rfl]
      unfold parseProvItems pySplitSemiSpace
      rw [hd, splitSemiSpaceAux_sep _ _ hno]
      simp only [List.map_cons, mk_data, List.filterMap_cons, hparse]
      exact congrArg (List.cons p)
        (ih (by simp) (fun it hm => hwf it (List.mem_cons_of_mem _ hm)))

/-- load_field_dict inverts the CURATED serialization for the masterdata
provenance when the source is semicolon-free. -/
theorem curated_round (src : String) (hss : ';' ∉ src.data) :
    load_field_dict (stringifyVal (FieldVal.curated src))
      "colrev_masterdata_provenance" = FieldVal.curated src := by
  have hd : (stringifyVal (FieldVal.curated src)).data =
      "CURATED".data ++ ':' :: (src.data ++ [';', ';']) := by
    simp [stringifyVal, str_data_append,
      show ("CURATED:" : String).data = "CURATED".data ++ [':'] from rfl,
      show (";;" : String).data = [';', ';'] from rfl]
  have hd4 : (stringifyVal (FieldVal.curated src)).data =
      ("CURATED".data ++ ':' :: src.data) ++ [';', ';'] := by
    rw [hd]
    simp
  have htake : pyTake (stringifyVal (FieldVal.curated src)) 7 =
      "CURATED" := by
    unfold pyTake
    rw [hd]
    rw [show ("CURATED".data ++ ':' :: (src.data ++ [';', ';'])) =
      'C' :: 'U' :: 'R' :: 'A' :: 'T' :: 'E' :: 'D' :: ':' ::
        (src.data ++ [';', ';']) from rfl]
    rfl
  have h0 : src.data.count ';' = 0 := List.count_eq_zero.mpr hss
  have hc3 : List.count ';' (':' :: src.data) = 0 :=
    List.count_eq_zero.mpr (fun hm => by
      rcases List.mem_cons.mp hm with h | h
      · exact absurd h (by decide)
      · exact hss h)
  have hcount : (stringifyVal (FieldVal.curated src)).data.count ';' = 2 := by
    rw [hd4, List.count_append, List.count_append, hc3,
      show List.count ';' "CURATED".data = 0 from by decide,
      show List.count ';' ([';', ';'] : List Char) = 2 from by decide]
  have hcon : (stringifyVal (FieldVal.curated src)).data.contains ':' =
      true := by
    rw [hd]
    exact List.elem_iff.mpr (List.mem_append_right _
      (List.mem_cons_self _ _))
  have hfind : pyFind (stringifyVal (FieldVal.curated src)) ':' =
    ((7 : Nat) : Int) := by
    show pyFindAux ':' (stringifyVal (FieldVal.curated src)).data 0 = _
    rw [hd, pyFindAux_append ':' _ _ 0 (by decide)]
    rw [show ("CURATED".data).length = 7 from rfl]
    simp
  have hlen : (stringifyVal (FieldVal.curated src)).length =
      src.data.length + 10 := by
    show (stringifyVal (FieldVal.curated src)).data.length = _
    rw [hd]
    simp only [List.length_append, List.length_cons, List.length_nil,
      show ("CURATED".data).length = 7 from rfl]
    omega
  have htake1 : (stringifyVal (FieldVal.curated src)).data.take
      ((stringifyVal (FieldVal.curated src)).length - 1) =
      ("CURATED".data ++ ':' :: src.data) ++ [';'] := by
    rw [hd4, hlen]
    rw [show ("CURATED".data ++ ':' :: src.data) ++ [';', ';'] =
      (("CURATED".data ++ ':' :: src.data) ++ [';']) ++ [';'] from by simp]
    rw [show src.data.length + 10 - 1 =
      (("CURATED".data ++ ':' :: src.data) ++ [';']).length from by
        simp only [List.length_append, List.length_cons, List.length_nil,
          show ("CURATED".data).length = 7 from rfl]
        omega]
    rw [take_len_append]
  have hslice1 : pySlice (stringifyVal (FieldVal.curated src)) 0 (-1) =
      String.mk (("CURATED".data ++ ':' :: src.data) ++ [';']) := by
    rw [show (0 : Int) = ((0 : Nat) : Int) from rfl,
      pySlice_neg_one _ 0 (Nat.zero_le _), List.drop_zero, htake1]
  have hrfind : pyRFind
      (String.mk (("CURATED".data ++ ':' :: src.data) ++ [';'])) ';' =
      ((8 + src.data.length : Nat) : Int) := by
    show pyRFindAux ';'
      (("CURATED".data ++ ':' :: src.data) ++ ';' :: []) 0 (-1) = _
    rw [pyRFindAux_append ';' _ [] 0 (-1) (by simp)]
    simp only [List.length_append, List.length_cons, List.length_nil,
      show ("CURATED".data).length = 7 from rfl]
    push_cast
    ring
  have hble : 8 + src.data.length ≤
      (stringifyVal (FieldVal.curated src)).length := by
    rw [hlen]
    omega
  have hslice2 : pySlice (stringifyVal (FieldVal.curated src))
      ((8 : Nat) : Int) ((8 + src.data.length : Nat) : Int) = src := by
    rw [pySlice_of_nat _ 8 _ (by rw [hlen]; omega) hble]
    rw [hd4]
    rw [show (8 + src.data.length) =
      ("CURATED".data ++ ':' :: src.data).length from by
        simp only [List.length_append, List.length_cons,
          show ("CURATED".data).length = 7 from rfl]
        omega]
    rw [take_len_append]
    rw [show "CURATED".data ++ ':' :: src.data =
      ("CURATED".data ++ [':']) ++ src.data from by simp]
    rw [show (8 : Nat) = ("CURATED".data ++ [':']).length from by decide]
    rw [drop_len_append, mk_data]
  simp only [load_field_dict]
  rw [if_pos trivial, if_pos htake,
    if_neg (by rw [hcount]; omega : ¬ _ = 0),
    if_neg (by rw [hcount]; omega : ¬ _ = 1),
    if_pos hcon, hfind, hslice1, hrfind,
    show ((7 : Nat) : Int) + 1 = ((8 : Nat) : Int) from by norm_num,
    hslice2]

/-- The per-field transformation of parse_records_dict inverts the
stringification of every well-behaved field. -/
theorem transformField_inverts (k : String) (v : FieldVal)
    (h : WfField k v) : transformField k (stringifyVal v) = some v := by
  obtain ⟨-, -, -, -, -, -, -, -, -, -, -, -, hwv⟩ := h
  cases v with
  | str s =>
    obtain ⟨hdoi, hlang, hnl, hnd, hns⟩ := hwv
    unfold transformField
    rw [if_neg hns]
    by_cases hd : k = "doi"
    · rw [if_pos hd, show stringifyVal (FieldVal.str s) = s from rfl,
        hdoi hd]
    · rw [if_neg hd,
        if_neg (fun hc => hnl (List.elem_iff.mp hc)),
        if_neg (fun hc => hnd (List.elem_iff.mp hc)),
        show stringifyVal (FieldVal.str s) = s from rfl]
  | state st =>
    rw [hwv]
    unfold transformField
    rw [if_pos rfl, show stringifyVal (FieldVal.state st) = st.str from rfl,
      stateOfName_str]
    rfl
  | list xs =>
    obtain ⟨hmem, hne, hels⟩ := hwv
    simp only [list_fields_keys, List.mem_cons, List.mem_singleton,
      List.not_mem_nil, or_false] at hmem
    unfold transformField
    rcases hmem with rfl | rfl <;>
      rw [if_neg (by decide), if_neg (by decide), if_pos (by decide),
        show stringifyVal (FieldVal.list xs) = joinSep "; " xs from rfl,
        listField_round xs hne hels]
  | prov xs =>
    obtain ⟨hmem, hne, hcur, hits⟩ := hwv
    have hvne : stringifyVal (FieldVal.prov xs) ≠ "" := fun hempty => by
      have h2 := (str_eq_empty_iff _).mp hempty
      simp [stringifyVal, str_data_append,
        show (";" : String).data = [';'] from rfl] at h2
    simp only [dict_fields_keys, List.mem_cons, List.mem_singleton,
      List.not_mem_nil, or_false] at hmem
    unfold transformField
    rcases hmem with rfl | rfl <;>
    · rw [if_neg (by decide), if_neg (by decide), if_neg (by decide),
        if_pos (by decide)]
      simp only [load_field_dict]
      first
      | rw [if_pos trivial, if_neg hcur, if_neg hvne,
          parseProvItems_round xs hne hits]
      | rw [if_neg (by decide), if_neg hvne,
          parseProvItems_round xs hne hits]
  | curated src =>
    obtain ⟨hkeq, hss⟩ := hwv
    rw [hkeq]
    unfold transformField
    rw [if_neg (by decide), if_neg (by decide), if_neg (by decide),
      if_pos (by decide), curated_round src hss]

/-- Strings with the same character data are equal. -/
theorem str_ext {a b : String} (h : a.data = b.data) : a = b := by
  rw [← mk_data a, h, mk_data]

/-- String concatenation is associative. -/
theorem str_assoc (a b c : String) : a ++ b ++ c = a ++ (b ++ c) :=
  str_ext (by simp [str_data_append])

/-- The first line of a serialized entry. -/
def headerLine (r : BibRecord) : String :=
  "@" ++ r.entrytype ++ "\x7b" ++ r.id ++ ",\n"

/-- One serialized field line as the readline loop sees it. -/
def fieldLine (p : String × String) : String :=
  fieldBody p.1 p.2 ++ ",\n"

/-- The body lines of a serialized entry: its field lines and the
closing brace line. -/
def bodyLines (r : BibRecord) : List String :=
  (emittedFields r).map fieldLine ++ ["\x7d\n"]

/-- All lines of a serialized entry. -/
def entryLines (r : BibRecord) : List String :=
  headerLine r :: bodyLines r

/-- All lines of the serialized records file: entries separated by one
blank line. -/
def fileAllLines : List BibRecord → List String
  | [] => []
  | [r] => entryLines r
  | r :: rest => entryLines r ++ "\n" :: fileAllLines rest

/-- The serialized fields followed by the closing text equal the
concatenation of the field lines and the brace line. -/
theorem entry_join :
    ∀ (l : List (String × String)) (H : String),
      H ++ joinStr (l.map (fun p => format_field p.1 p.2)) ++ ",\n\x7d\n" =
        joinStr ((H ++ ",\n") :: (l.map fieldLine ++ ["\x7d\n"])) := by
  intro l
  induction l with
  | nil =>
    intro H
    apply str_ext
    simp [joinStr_cons, joinStr_nil, str_data_append,
      show (",\n\x7d\n" : String).data = [',', '\n', '}', '\n'] from rfl,
      show (",\n" : String).data = [',', '\n'] from rfl,
      show ("\x7d\n" : String).data = ['}', '\n'] from rfl]
  | cons p t ih =>
    intro H
    rw [List.map_cons, joinStr_cons,
      ← str_assoc H (format_field p.1 p.2)
        (joinStr (t.map fun q => format_field q.1 q.2)),
      ih (H ++ format_field p.1 p.2)]
    apply str_ext
    simp [joinStr_cons, format_field, fieldLine, str_data_append]

/-- One entry serializes as the concatenation of its lines. -/
theorem entryStr_lines (r : BibRecord) :
    entryStr r = joinStr (entryLines r) := by
  unfold entryStr entryLines bodyLines headerLine
  exact entry_join (emittedFields r) ("@" ++ r.entrytype ++ "\x7b" ++ r.id)

/-- The records file serializes as the concatenation of all its lines. -/
theorem parse_bibtex_lines :
    ∀ (m : List BibRecord), m ≠ [] →
      parse_bibtex_str m = joinStr (fileAllLines m) := by
  intro m
  induction m with
  | nil => intro h; exact absurd rfl h
  | cons r t ih =>
    intro _
    cases t with
    | nil =>
      show joinSep "\n" [entryStr r] = _
      rw [show joinSep "\n" [entryStr r] = entryStr r from rfl,
        entryStr_lines]
      rfl
    | cons q t2 =>
      have ih2 : parse_bibtex_str (q :: t2) =
          joinStr (fileAllLines (q :: t2)) := ih (by simp)
      show joinSep "\n" (entryStr r :: entryStr q :: t2.map entryStr) = _
      rw [show joinSep "\n" (entryStr r :: entryStr q :: t2.map entryStr) =
        entryStr r ++ "\n" ++ joinSep "\n" ((q :: t2).map entryStr)
        from rfl]
      rw [show joinSep "\n" ((q :: t2).map entryStr) =
        parse_bibtex_str (q :: t2) from rfl, ih2, entryStr_lines]
      rw [show fileAllLines (r :: q :: t2) =
        entryLines r ++ "\n" :: fileAllLines (q :: t2) from rfl]
      rw [joinStr_append, joinStr_cons, str_assoc]

/-- The header line parses back to the entry type and the id. -/
theorem parseHeaderLine_of (t id : String) (ht : '{' ∉ t.data)
    (hid : ',' ∉ id.data) :
    parseHeaderLine ("@" ++ t ++ "\x7b" ++ id ++ ",\n") = some (t, id) := by
  have hd : ("@" ++ t ++ "\x7b" ++ id ++ ",\n").data =
      '@' :: (t.data ++ '{' :: (id.data ++ ',' :: ['\n'])) := by
    simp [str_data_append,
      show ("@" : String).data = ['@'] from rfl,
      show ("\x7b" : String).data = ['{'] from rfl,
      show (",\n" : String).data = [',', '\n'] from rfl]
  unfold parseHeaderLine
  rw [hd]
  dsimp only
  rw [if_pos rfl, scanTo_append '{' t.data _ ht]
  dsimp only [Option.bind]
  rw [scanTo_append ',' id.data _ hid]
  dsimp only [Option.bind]
  rw [if_pos rfl, mk_data, mk_data]

/-- A serialized field line parses back to its key and value. -/
theorem parseFieldLine_of (k v : String) (hks : ' ' ∉ k.data)
    (hvb : '}' ∉ v.data) :
    parseFieldLine (fieldLine (k, v)) = some (k, v) := by
  have hd : (fieldLine (k, v)).data =
      ' ' :: ' ' :: ' ' :: (k.data ++ ' ' ::
        (List.replicate (28 - k.length) ' ' ++ ' ' :: '=' :: ' ' :: '{' ::
          (v.data ++ '}' :: [',', '\n']))) := by
    simp [fieldLine, fieldBody, spaces, str_data_append,
      show ("   " : String).data = [' ', ' ', ' '] from rfl,
      show (" = \x7b" : String).data = [' ', '=', ' ', '{'] from rfl,
      show ("\x7d" : String).data = ['}'] from rfl,
      show (" " : String).data = [' '] from rfl,
      show (",\n" : String).data = [',', '\n'] from rfl]
  unfold parseFieldLine
  rw [hd]
  dsimp only
  rw [if_pos ⟨rfl, rfl, rfl⟩, scanTo_append ' ' k.data _ hks]
  dsimp only [Option.bind]
  rw [dropWhile_spaces (28 - k.length)
    (' ' :: '=' :: ' ' :: '{' :: (v.data ++ '}' :: [',', '\n'])),
    List.dropWhile_cons_of_pos (by decide),
    List.dropWhile_cons_of_neg (by decide)]
  dsimp only
  rw [if_pos ⟨rfl, rfl, rfl⟩, scanTo_append '}' v.data _ hvb]
  dsimp only [Option.bind]
  rw [if_pos rfl, mk_data, mk_data]

/-- A string whose data is a newline-free word plus the terminator is a
readline-style line. -/
theorem NlLine_of_data {l : String} (w : List Char) (hw : l.data = w ++ ['\n'])
    (hni : '\n' ∉ w) : NlLine l := by
  constructor
  · rw [hw, List.getLast?_concat]
  · rw [hw, List.dropLast_concat]
    exact hni

/-- The en-to-eng conversion is the identity on well-behaved fields. -/
theorem fixLanguage_id (fields : List (String × FieldVal))
    (h : ∀ p ∈ fields, WfField p.1 p.2) : fixLanguage fields = fields := by
  unfold fixLanguage
  induction fields with
  | nil => rfl
  | cons p t ih =>
    rw [List.map_cons, ih (fun x hx => h x (List.mem_cons_of_mem _ hx))]
    rw [if_neg (fun hc => ?_)]
    obtain ⟨hl, hv⟩ := hc
    obtain ⟨-, -, -, -, -, -, -, -, -, -, -, -, hwv⟩ :=
      h p (List.mem_cons_self _ _)
    rw [hv] at hwv
    exact hwv.2.1 hl rfl

/-- Values reached by the serializer all come with their field's
well-behavedness. -/
theorem emittedFields_wf (r : BibRecord)
    (h : ∀ p ∈ r.fields, WfField p.1 p.2) :
    ∀ q ∈ emittedFields r,
      ∃ v, q.2 = stringifyVal v ∧ WfField q.1 v := by
  intro q hq
  have hs : q ∈ stringifiedFields r := by
    unfold emittedFields at hq
    rcases List.mem_append.mp hq with h1 | h1
    · have h2 := List.mem_of_mem_filter h1
      obtain ⟨k, _, hfind⟩ := List.mem_filterMap.mp h2
      exact List.mem_of_find?_eq_some hfind
    · exact List.mem_of_mem_filter h1
  unfold stringifiedFields at hs
  rw [fixLanguage_id r.fields h] at hs
  obtain ⟨p, hp, hpq⟩ := List.mem_map.mp hs
  exact ⟨p.2, by rw [← hpq], by rw [← hpq]; exact h p hp⟩

/-- The header line of a well-behaved record is a readline line. -/
theorem headerLine_nl (r : BibRecord) (h : WfRecord r) :
    NlLine (headerLine r) := by
  obtain ⟨_, _, honl, _, hid2, _, _, _⟩ := h
  apply NlLine_of_data
    ('@' :: (r.entrytype.data ++ ('{' :: (r.id.data ++ [',']))))
  · simp [headerLine, str_data_append,
      show ("@" : String).data = ['@'] from rfl,
      show ("\x7b" : String).data = ['{'] from rfl,
      show (",\n" : String).data = [',', '\n'] from rfl]
  · intro hm
    rcases List.mem_cons.mp hm with h1 | hm2
    · exact absurd h1 (by decide)
    rcases List.mem_append.mp hm2 with h1 | hm3
    · exact honl h1
    rcases List.mem_cons.mp hm3 with h1 | hm4
    · exact absurd h1 (by decide)
    rcases List.mem_append.mp hm4 with h1 | hm5
    · exact hid2 h1
    · exact absurd (List.mem_singleton.mp hm5) (by decide)

/-- A field line built from a well-behaved field is a readline line. -/
theorem fieldLine_nl (k sv : String) (hk : '\n' ∉ k.data)
    (hv : '\n' ∉ sv.data) : NlLine (fieldLine (k, sv)) := by
  apply NlLine_of_data
    (' ' :: ' ' :: ' ' :: (k.data ++ ' ' ::
      (List.replicate (28 - k.length) ' ' ++ ' ' :: '=' :: ' ' :: '{' ::
        (sv.data ++ ['}', ',']))))
  · simp [fieldLine, fieldBody, spaces, str_data_append,
      show ("   " : String).data = [' ', ' ', ' '] from rfl,
      show (" = \x7b" : String).data = [' ', '=', ' ', '{'] from rfl,
      show ("\x7d" : String).data = ['}'] from rfl,
      show (" " : String).data = [' '] from rfl,
      show (",\n" : String).data = [',', '\n'] from rfl]
  · intro hm
    rcases List.mem_cons.mp hm with h1 | hm2
    · exact absurd h1 (by decide)
    rcases List.mem_cons.mp hm2 with h1 | hm3
    · exact absurd h1 (by decide)
    rcases List.mem_cons.mp hm3 with h1 | hm4
    · exact absurd h1 (by decide)
    rcases List.mem_append.mp hm4 with h1 | hm5
    · exact hk h1
    rcases List.mem_cons.mp hm5 with h1 | hm6
    · exact absurd h1 (by decide)
    rcases List.mem_append.mp hm6 with h1 | hm7
    · exact absurd (List.eq_of_mem_replicate h1) (by decide)
    rcases List.mem_cons.mp hm7 with h1 | hm8
    · exact absurd h1 (by decide)
    rcases List.mem_cons.mp hm8 with h1 | hm9
    · exact absurd h1 (by decide)
    rcases List.mem_cons.mp hm9 with h1 | hm10
    · exact absurd h1 (by decide)
    rcases List.mem_cons.mp hm10 with h1 | hm11
    · exact absurd h1 (by decide)
    rcases List.mem_append.mp hm11 with h1 | hm12
    · exact hv h1
    · rcases List.mem_cons.mp hm12 with h1 | hm13
      · exact absurd h1 (by decide)
      · exact absurd (List.mem_singleton.mp hm13) (by decide)

/-- All lines of a well-behaved record's entry are readline lines. -/
theorem entryLines_nl (r : BibRecord) (h : WfRecord r) :
    ∀ l ∈ entryLines r, NlLine l := by
  intro l hl
  rcases List.mem_cons.mp hl with rfl | hb
  · exact headerLine_nl r h
  rcases List.mem_append.mp hb with h1 | h1
  · obtain ⟨q, hq, rfl⟩ := List.mem_map.mp h1
    obtain ⟨v, hqv, hwf⟩ := emittedFields_wf r h.2.2.2.2.2.2.1 q hq
    obtain ⟨-, -, -, -, hknl, -, -, -, hvnl, -⟩ := hwf
    exact fieldLine_nl q.1 q.2 hknl (by rw [hqv]; exact hvnl)
  · rw [List.mem_singleton.mp h1]
    decide

/-- All lines of the serialized file of a well-behaved record map are
readline lines. -/
theorem fileAllLines_nl :
    ∀ (m : List BibRecord), (∀ r ∈ m, WfRecord r) →
      ∀ l ∈ fileAllLines m, NlLine l := by
  intro m
  induction m with
  | nil => intro _ l hl; exact absurd hl (List.not_mem_nil l)
  | cons r t ih =>
    intro h l hl
    cases t with
    | nil =>
      exact entryLines_nl r (h r (List.mem_cons_self _ _)) l hl
    | cons q t2 =>
      rw [show fileAllLines (r :: q :: t2) =
        entryLines r ++ "\n" :: fileAllLines (q :: t2) from rfl] at hl
      rcases List.mem_append.mp hl with h1 | h1
      · exact entryLines_nl r (h r (List.mem_cons_self _ _)) l h1
      rcases List.mem_cons.mp h1 with rfl | h1
      · decide
      · exact ih (fun x hx => h x (List.mem_cons_of_mem _ hx)) l h1

/-- A header line starts with the at sign. -/
theorem pyTake_one_header (r : BibRecord) : pyTake (headerLine r) 1 = "@" := by
  unfold pyTake
  rw [show (headerLine r).data =
    '@' :: (r.entrytype.data ++ ('{' :: (r.id.data ++ [',', '\n'])))
    from by
      simp [headerLine, str_data_append,
        show ("@" : String).data = ['@'] from rfl,
        show ("\x7b" : String).data = ['{'] from rfl,
        show (",\n" : String).data = [',', '\n'] from rfl]]
  rfl

/-- A field line starts with a space. -/
theorem pyTake_one_fieldLine (p : String × String) :
    pyTake (fieldLine p) 1 = " " := by
  unfold pyTake
  rw [show (fieldLine p).data = ' ' :: (' ' :: ' ' :: (p.1.data ++
      (" " ++ spaces (28 - p.1.length) ++ " = \x7b" ++ p.2 ++ "\x7d" ++
        ",\n").data)) from by
    simp [fieldLine, fieldBody, str_data_append,
      show ("   " : String).data = [' ', ' ', ' '] from rfl]]
  rfl

/-- Body lines never start an entry, are not comments, and are not the
blank separator. -/
theorem bodyLines_neutral (r : BibRecord) :
    ∀ l ∈ bodyLines r,
      pyTake l 1 ≠ "@" ∧ pyTake l 1 ≠ "%" ∧ l ≠ "\n" := by
  intro l hl
  rcases List.mem_append.mp hl with h1 | h1
  · obtain ⟨q, _, rfl⟩ := List.mem_map.mp h1
    refine ⟨?_, ?_, ?_⟩
    · rw [pyTake_one_fieldLine]
      decide
    · rw [pyTake_one_fieldLine]
      decide
    · intro hc
      have := pyTake_one_fieldLine q
      rw [hc] at this
      exact absurd this (by decide)
  · rw [List.mem_singleton.mp h1]
    refine ⟨by decide, by decide, by decide⟩

/-- The grouping loop accumulates neutral body lines onto the open
entry. -/
theorem groupAux_body :
    ∀ (bs : List String) (e : String × List String) (rest : List String),
      (∀ l ∈ bs, pyTake l 1 ≠ "@" ∧ pyTake l 1 ≠ "%" ∧ l ≠ "\n") →
      groupEntriesAux (some e) (bs ++ rest) =
        groupEntriesAux (some (e.1, e.2 ++ bs)) rest := by
  intro bs
  induction bs with
  | nil =>
    intro e rest _
    simp
  | cons b bs2 ih =>
    intro e rest h
    obtain ⟨h1, h2, h3⟩ := h b (List.mem_cons_self _ _)
    rw [List.cons_append]
    show groupEntriesAux (some e) (b :: (bs2 ++ rest)) = _
    rw [groupEntriesAux, if_neg h1, if_neg (fun hc => hc.elim h2 h3)]
    rw [ih (e.1, e.2 ++ [b]) rest
      (fun l hl => h l (List.mem_cons_of_mem _ hl))]
    rw [List.append_assoc, List.singleton_append]

/-- The grouping loop opens an entry at a header line. -/
theorem groupAux_start (hl : String) (hhl : pyTake hl 1 = "@")
    (rest : List String) :
    groupEntriesAux none (hl :: rest) =
      groupEntriesAux (some (hl, [])) rest := by
  rw [groupEntriesAux, if_pos hhl]

/-- The grouping loop closes the open entry at the next header line. -/
theorem groupAux_next (e : String × List String) (hl : String)
    (hhl : pyTake hl 1 = "@") (rest : List String) :
    groupEntriesAux (some e) (hl :: rest) =
      e :: groupEntriesAux (some (hl, [])) rest := by
  rw [groupEntriesAux, if_pos hhl]

/-- The grouping loop skips the blank separator line. -/
theorem groupAux_blank (e : String × List String) (rest : List String) :
    groupEntriesAux (some e) ("\n" :: rest) =
      groupEntriesAux (some e) rest := by
  rw [groupEntriesAux, if_neg (by decide), if_pos (Or.inr rfl)]

/-- Grouping the serialized file lines recovers each record's header
line and body lines. -/
theorem groupEntries_file :
    ∀ (m : List BibRecord),
      groupEntriesAux none (fileAllLines m) =
        m.map (fun r => (headerLine r, bodyLines r)) := by
  intro m
  induction m with
  | nil => rfl
  | cons r t ih =>
    cases t with
    | nil =>
      rw [show fileAllLines [r] = headerLine r :: (bodyLines r ++ [])
        from by simp [fileAllLines, entryLines]]
      rw [groupAux_start _ (pyTake_one_header r), groupAux_body _ _ _
        (bodyLines_neutral r)]
      simp [groupEntriesAux]
    | cons q t2 =>
      rw [show fileAllLines (r :: q :: t2) =
        headerLine r :: (bodyLines r ++ "\n" :: fileAllLines (q :: t2))
        from rfl]
      rw [groupAux_start _ (pyTake_one_header r), groupAux_body _ _ _
        (bodyLines_neutral r), groupAux_blank]
      have hhead : ∃ tail, fileAllLines (q :: t2) = headerLine q :: tail := by
        cases t2 with
        | nil => exact ⟨_, rfl⟩
        | cons x t3 => exact ⟨_, rfl⟩
      obtain ⟨tail, htail⟩ := hhead
      rw [htail, groupAux_next _ _ (pyTake_one_header q), ← groupAux_start _
        (pyTake_one_header q), ← htail, ih]
      simp

/-- Mapping a pointwise-successful partial function over an image list
succeeds with the pointwise results. -/
theorem mapM_map_some {α β γ : Type} (f : β → Option γ) (g : α → β)
    (res : α → γ) :
    ∀ (l : List α), (∀ x ∈ l, f (g x) = some (res x)) →
      (l.map g).mapM f = some (l.map res) := by
  intro l
  induction l with
  | nil => intro _; rfl
  | cons a t ih =>
    intro h
    rw [List.map_cons, List.mapM_cons, h a (List.mem_cons_self _ _),
      ih (fun x hx => h x (List.mem_cons_of_mem _ hx))]
    rfl

/-- A grouped entry of a well-behaved record parses back to its raw
entry triple. -/
theorem parseEntryLines_of (r : BibRecord) (h : WfRecord r) :
    parseEntryLines (headerLine r, bodyLines r) =
      some (r.entrytype, r.id, emittedFields r) := by
  obtain ⟨-, hob, -, hid1, -, -, hfld, -⟩ := h
  unfold parseEntryLines
  rw [show (headerLine r, bodyLines r).1 = headerLine r from rfl,
    show (headerLine r, bodyLines r).2 = bodyLines r from rfl]
  rw [show headerLine r = "@" ++ r.entrytype ++ "\x7b" ++ r.id ++ ",\n"
    from rfl]
  rw [parseHeaderLine_of r.entrytype r.id hob hid1]
  dsimp only [Option.bind]
  rw [show bodyLines r = (emittedFields r).map fieldLine ++ ["\x7d\n"]
    from rfl]
  rw [List.getLast?_concat, if_pos rfl, List.dropLast_concat]
  rw [mapM_map_some parseFieldLine fieldLine (fun q => q) (emittedFields r)
    (fun q hq => ?_), List.map_id']
  · rfl
  obtain ⟨v, hqv, hwf⟩ := emittedFields_wf r hfld q hq
  obtain ⟨-, -, -, hksp, -, -, -, hvcb, -, -⟩ := hwf
  rw [show fieldLine q = fieldLine (q.1, q.2) from rfl]
  exact parseFieldLine_of q.1 q.2 hksp (by rw [hqv]; exact hvcb)

/-- The surface reader recovers, from the serialized file of a
well-behaved record map, exactly the raw entries of the records. -/
theorem parseBibSurface_file (m : List BibRecord) (h : WfRecords m) :
    parseBibSurface (parse_bibtex_str m) =
      some (m.map (fun r => (r.entrytype, r.id, emittedFields r))) := by
  cases m with
  | nil => rfl
  | cons r0 t0 =>
    unfold parseBibSurface
    rw [parse_bibtex_lines (r0 :: t0) (by simp),
      splitLinesKeep_joinStr _ (fileAllLines_nl (r0 :: t0) h.2),
      show groupEntries (fileAllLines (r0 :: t0)) =
        groupEntriesAux none (fileAllLines (r0 :: t0)) from rfl,
      groupEntries_file (r0 :: t0)]
    exact mapM_map_some parseEntryLines
      (fun r => (headerLine r, bodyLines r))
      (fun r => (r.entrytype, r.id, emittedFields r)) (r0 :: t0)
      (fun r hr => parseEntryLines_of r (h.2 r hr))

/-- The record's field values in the order the serializer emits them:
the present fixed-order fields with nonempty serialization, then the
remaining fields. -/
def emittedVals (r : BibRecord) : List (String × FieldVal) :=
  (field_order.filterMap (fun k =>
    r.fields.find? (fun p => p.1 == k))).filter
      (fun p => stringifyVal p.2 ≠ "")
  ++ r.fields.filter (fun p => ¬ field_order.contains p.1)

/-- find? of a key commutes with stringifying the values. -/
theorem find?_map_stringify (fields : List (String × FieldVal))
    (k : String) :
    (fields.map (fun p => (p.1, stringifyVal p.2))).find?
        (fun p => p.1 == k) =
      (fields.find? (fun p => p.1 == k)).map
        (fun p => (p.1, stringifyVal p.2)) := by
  induction fields with
  | nil => rfl
  | cons p t ih =>
    rw [List.map_cons]
    cases hc : (p.1 == k) with
    | false =>
      rw [List.find?_cons_of_neg _ (by simp [hc]),
        List.find?_cons_of_neg _ (by simp [hc]), ih]
    | true =>
      rw [List.find?_cons_of_pos _ (by simp [hc]),
        List.find?_cons_of_pos _ (by simp [hc])]
      rfl

/-- The emitted (key, text) pairs are the stringified emitted values. -/
theorem emittedFields_eq (r : BibRecord)
    (h : ∀ p ∈ r.fields, WfField p.1 p.2) :
    emittedFields r =
      (emittedVals r).map (fun p => (p.1, stringifyVal p.2)) := by
  unfold emittedFields emittedVals stringifiedFields
  rw [fixLanguage_id r.fields h, List.map_append]
  congr 1
  · simp only [find?_map_stringify]
    rw [← List.map_filterMap, List.filter_map]
    rfl
  · rw [List.filter_map]
    rfl

/-- Every emitted value pair is one of the record's fields. -/
theorem emittedVals_subset (r : BibRecord) :
    ∀ p ∈ emittedVals r, p ∈ r.fields := by
  intro p hp
  rcases List.mem_append.mp hp with h1 | h1
  · have h2 := List.mem_of_mem_filter h1
    obtain ⟨k, _, hfind⟩ := List.mem_filterMap.mp h2
    exact List.mem_of_find?_eq_some hfind
  · exact List.mem_of_mem_filter h1

/-- Under the nonempty-fixed-field condition the serializer's filter
keeps every found fixed-order field. -/
theorem emittedVals_eq_of_wf (r : BibRecord)
    (h : ∀ p ∈ r.fields, p.1 ∈ field_order → stringifyVal p.2 ≠ "") :
    emittedVals r =
      field_order.filterMap (fun k => r.fields.find? (fun p => p.1 == k))
      ++ r.fields.filter (fun p => ¬ field_order.contains p.1) := by
  unfold emittedVals
  congr 1
  apply List.filter_eq_self.mpr
  intro b hb
  obtain ⟨k, hk, hfind⟩ := List.mem_filterMap.mp hb
  have hbmem := List.mem_of_find?_eq_some hfind
  have hbk : b.1 = k := by simpa using List.find?_some hfind
  simpa using h b hbmem (hbk ▸ hk)

/-- When no field has the key, the per-key slots contain no pair with
the key either. -/
theorem find?_slots_none (fields : List (String × FieldVal)) (k0 : String)
    (hf : fields.find? (fun p => p.1 == k0) = none) :
    ∀ (ks : List String),
      ((ks.filterMap (fun k => fields.find? (fun p => p.1 == k))).find?
        (fun p => p.1 == k0)) = none := by
  intro ks
  induction ks with
  | nil => rfl
  | cons k ks2 ih =>
    rw [List.filterMap_cons]
    cases hslot : fields.find? (fun p => p.1 == k) with
    | none => exact ih
    | some b =>
      have hb : (b.1 == k0) = false := by
        cases hc : (b.1 == k0) with
        | false => rfl
        | true =>
          have hbmem := List.mem_of_find?_eq_some hslot
          exact absurd hc (List.find?_eq_none.mp hf b hbmem)
      rw [List.find?_cons_of_neg _ (by simp [hb]), ih]

/-- When some field has the key, the first slot pair with the key is
that field. -/
theorem find?_slots_some (fields : List (String × FieldVal)) (k0 : String)
    (a : String × FieldVal)
    (hf : fields.find? (fun p => p.1 == k0) = some a) :
    ∀ (ks : List String), k0 ∈ ks →
      ((ks.filterMap (fun k => fields.find? (fun p => p.1 == k))).find?
        (fun p => p.1 == k0)) = some a := by
  intro ks
  induction ks with
  | nil => intro h; exact absurd h (List.not_mem_nil k0)
  | cons k ks2 ih =>
    intro hmem
    rw [List.filterMap_cons]
    by_cases hk : k = k0
    · rw [hk, hf]
      apply List.find?_cons_of_pos
      simpa using List.find?_some hf
    · have hmem2 : k0 ∈ ks2 := by
        rcases List.mem_cons.mp hmem with h | h
        · exact absurd h.symm hk
        · exact h
      cases hslot : fields.find? (fun p => p.1 == k) with
      | none => exact ih hmem2
      | some b =>
        have hbk : b.1 = k := by simpa using List.find?_some hslot
        rw [List.find?_cons_of_neg _ (by simp [hbk, hk]), ih hmem2]

/-- Filtering the leftover fields does not change lookups of keys
outside the fixed order. -/
theorem find?_filter_leftover (fields : List (String × FieldVal))
    (k0 : String) (hk0 : k0 ∉ field_order) :
    ((fields.filter (fun p => ¬ field_order.contains p.1)).find?
      (fun p => p.1 == k0)) = fields.find? (fun p => p.1 == k0) := by
  induction fields with
  | nil => rfl
  | cons b t ih =>
    by_cases hp : (b.1 == k0) = true
    · have hb1 : b.1 = k0 := by simpa using hp
      have hq : (decide (¬ field_order.contains b.1)) = true := by
        simp only [hb1, decide_eq_true_eq]
        intro hc
        exact hk0 (List.elem_iff.mp hc)
      rw [List.filter_cons_of_pos (by exact hq),
        List.find?_cons_of_pos _ (by exact hp),
        List.find?_cons_of_pos _ (by exact hp)]
    · rw [List.find?_cons_of_neg _ (by exact hp)]
      cases hq : (decide (¬ field_order.contains b.1)) with
      | false => rw [List.filter_cons_of_neg (by rw [hq]; simp), ih]
      | true =>
        rw [List.filter_cons_of_pos (by exact hq),
          List.find?_cons_of_neg _ (by exact hp), ih]

/-- The per-key slots hold no pair whose key lies outside the fixed
order. -/
theorem find?_slots_outside (fields : List (String × FieldVal))
    (k0 : String) (hk0 : k0 ∉ field_order) :
    ((field_order.filterMap (fun k =>
      fields.find? (fun p => p.1 == k))).find?
        (fun p => p.1 == k0)) = none :=
  List.find?_eq_none.mpr (fun b hb => by
    obtain ⟨k, hk, hfind⟩ := List.mem_filterMap.mp hb
    have hbk : b.1 = k := by simpa using List.find?_some hfind
    intro hc
    have hk0k : k = k0 := by simpa [hbk] using hc
    exact hk0 (hk0k ▸ hk))

/-- The reordered field list the parser produces has the same lookup
table as the original fields. -/
theorem lookup_emittedVals (r : BibRecord)
    (hne : ∀ p ∈ r.fields, p.1 ∈ field_order → stringifyVal p.2 ≠ "") :
    fieldsLookupEq (emittedVals r) r.fields := by
  intro k0
  rw [emittedVals_eq_of_wf r hne, List.find?_append]
  by_cases hmem : k0 ∈ field_order
  · cases hf : r.fields.find? (fun p => p.1 == k0) with
    | none =>
      rw [find?_slots_none r.fields k0 hf field_order]
      have hB : ((r.fields.filter
          (fun p => ¬ field_order.contains p.1)).find?
            (fun p => p.1 == k0)) = none :=
        List.find?_eq_none.mpr (fun x hx =>
          List.find?_eq_none.mp hf x (List.mem_of_mem_filter hx))
      rw [hB]
      rfl
    | some a =>
      rw [find?_slots_some r.fields k0 a hf field_order hmem]
      rfl
  · rw [find?_slots_outside r.fields k0 hmem,
      find?_filter_leftover r.fields k0 hmem]
    cases r.fields.find? (fun p => p.1 == k0) <;> rfl

/-- The record transformation turns the raw entries of a well-behaved
store back into records, with the fields in emission order. -/
theorem parse_records_file (m : List BibRecord) (h : WfRecords m) :
    parse_records_dict
        (m.map (fun r => (r.entrytype, r.id, emittedFields r))) =
      some (m.map (fun r =>
        BibRecord.mk r.id r.entrytype (emittedVals r))) := by
  unfold parse_records_dict
  apply mapM_map_some
  intro r hr
  dsimp only
  rw [emittedFields_eq r (h.2 r hr).2.2.2.2.2.2.1]
  rw [mapM_map_some (fun p => (transformField p.1 p.2).map ((p.1, ·)))
    (fun p => (p.1, stringifyVal p.2)) (fun q => q) (emittedVals r)
    (fun q hq => ?_)]
  · rw [List.map_id']
    rfl
  · have hwfq := (h.2 r hr).2.2.2.2.2.2.1 q (emittedVals_subset r q hq)
    dsimp only
    rw [transformField_inverts q.1 q.2 hwfq]
    rfl

/-- C5: for every well-behaved record store (shape-correct values under
each key, no legacy-format quirks, no empty fixed-order field, no
two-letter en language), serializing with parse_bibtex_str and loading
with load_records_dict yields a store equal record by record to the
original (same ids, entry types, and field dictionaries). -/
theorem C5_amended_theorem (m : List BibRecord) (h : WfRecords m) :
    ∃ p, load_records_dict (parse_bibtex_str m) = some p ∧
      recordsEq p m := by
  refine ⟨m.map (fun r => BibRecord.mk r.id r.entrytype (emittedVals r)),
    ?_, ?_⟩
  · unfold load_records_dict
    rw [parseBibSurface_file m h]
    exact parse_records_file m h
  · unfold recordsEq
    rw [List.forall₂_map_left_iff, List.forall₂_same]
    intro r hr
    exact ⟨rfl, rfl, lookup_emittedVals r (h.2 r hr).2.2.2.2.2.2.2⟩

instance (m : List BibRecord) : Decidable (WfRecords m) := by
  unfold WfRecords
  infer_instance

/-- A concrete well-behaved two-record store. -/
def c5good : List BibRecord :=
  [⟨"R1", "article",
     [("colrev_status", FieldVal.state RecordState.md_imported),
      ("colrev_origin", FieldVal.list ["files.bib/000001"]),
      ("colrev_masterdata_provenance",
        FieldVal.prov [("author", "manual", "ok")]),
      ("title", FieldVal.str "A Study")]⟩,
   ⟨"R2", "misc", [("doi", FieldVal.str "10.1000/X42")]⟩]

/-- C5 witness: the amended round trip at a concrete well-behaved
two-record store. -/
theorem C5_witness :
    WfRecords c5good ∧
      ∃ p, load_records_dict (parse_bibtex_str c5good) = some p ∧
        recordsEq p c5good :=
  ⟨by decide, C5_amended_theorem c5good (by decide)⟩

end Colrev
